/-
Verification of the GoodDates client logic (src/script.js and the legacy
variant src/unnamed/part_000) against its natural-language specification.

Modelling conventions for the shallow embedding:

* JavaScript `Date` values are represented by their day serial number
  (an `Int`): `endDate - start` days apart means the JS millisecond
  difference divided by 86 400 000 is exactly `endDate - start`, so
  `Math.floor((end - start) / 86400000) + 1` is `endDate - start + 1`.
  `date.setDate(date.getDate() + i)` is serial addition, and
  `toDateString()` keys coincide with serial equality.
* `Math.random()` is modelled by an oracle of rational draws in `[0, 1)`.
  Each call site draws from its own indexed stream (`Rng` below); this is
  behaviour-preserving for a source of independent uniform draws, and the
  theorems quantify over all oracles.
* The two rejection-sampling `while` loops of the source have no iteration
  bound, so their embeddings take fuel and return `none` when the fuel runs
  out; theorems about results are stated for terminating runs (`some`).
* JS `%` on integers truncates toward zero, hence `Int.tmod`;
  `Math.floor` of an integer quotient is `Int.fdiv`; `Math.floor` of a
  rational is `Int.floor`.
* `Array.prototype.sort` with the comparator `(a, b) => a.date - b.date`
  is a stable sort by date, modelled by `List.insertionSort`.
-/
import Mathlib

set_option linter.unusedVariables false

/-! ### Random oracle -/

/-- A rational draw lying in the unit interval `[0, 1)`, the range of
JavaScript `Math.random()`. -/
def Unit01 (q : ℚ) : Prop := 0 ≤ q ∧ q < 1

/-- Oracle for the `Math.random()` call sites of `script.js`.  Each field
indexes the independent uniform draws consumed at one call site: `bad i` is
the 10%-test draw of trading day `i`; `offset k` the `k`-th day-offset draw
of the non-trading sampling loop; `slot c a` the `a`-th slot draw of the
`c`-th `buildHourRecommendations` call; the remaining four feed
`generateReasonForDate`. -/
structure Rng where
  bad : Nat → ℚ
  offset : Nat → ℚ
  slot : Nat → Nat → ℚ
  door : Nat → ℚ
  star : Nat → ℚ
  deity : Nat → ℚ
  element : Nat → ℚ

/-- All draws of the oracle lie in `[0, 1)`. -/
def ValidRng (g : Rng) : Prop :=
  (∀ i, Unit01 (g.bad i)) ∧ (∀ i, Unit01 (g.offset i)) ∧
    (∀ c a, Unit01 (g.slot c a)) ∧ (∀ i, Unit01 (g.door i)) ∧
    (∀ i, Unit01 (g.star i)) ∧ (∀ i, Unit01 (g.deity i)) ∧
    (∀ i, Unit01 (g.element i))

/-- `Math.floor(r * n)` for a list index draw, truncated to `Nat`. -/
def floorIdx (r : ℚ) (n : Nat) : Nat := (Int.floor (r * (n : ℚ))).toNat

/-! ### Fixed tables of script.js -/

def stemsList : List String :=
  ["Jia", "Yi", "Bing", "Ding", "Wu", "Ji", "Geng", "Xin", "Ren", "Gui"]

def branchesList : List String :=
  ["Zi", "Chou", "Yin", "Mao", "Chen", "Si", "Wu", "Wei", "Shen", "You", "Xu", "Hai"]

def timeSlots : List String :=
  ["05:00–06:30", "07:00–08:30", "09:00–10:30", "11:00–12:30", "13:00–14:30",
   "15:00–16:30", "17:00–18:30", "19:00–20:30", "21:00–22:30"]

def qiMenDoors : List String :=
  ["Open Door", "Rest Door", "Life Door", "Harm Door", "Delusion Door",
   "Scene Door", "Death Door", "Fear Door"]

def qiMenStars : List String :=
  ["Chief Star", "Surprise Star", "Snake Star", "Tiger Star", "Pheasant Star",
   "Tortoise Star", "Dragon Star", "Earth Star"]

def qiMenDeities : List String :=
  ["Chief Deity", "Surprise Deity", "Snake Deity", "Tiger Deity",
   "Pheasant Deity", "Tortoise Deity", "Dragon Deity", "Earth Deity"]

def baziElements : List String := ["Wood", "Fire", "Earth", "Metal", "Water"]

/-! ### Pillar calculator (`calculateBaZi`, script.js lines 446-472) -/

structure Pillar where
  pillar : String
  stem : String
  branch : String
deriving Repr, DecidableEq

/-- `calculateBaZi` of script.js, after the `dob.split('-')`/`time.split(':')`
parsing step: the arithmetic on the parsed integer year, month, day and
hour. -/
def calculateBaZi (year month day hour : Int) : List Pillar :=
  let yearStemIndex := (year - 4).tmod 10
  let yearBranchIndex := (year - 4).tmod 12
  let monthStemIndex := (month + yearStemIndex).tmod 10
  let monthBranchIndex := (month + 1).tmod 12
  let dayStemIndex := (day + monthStemIndex).tmod 10
  let dayBranchIndex := (day + monthBranchIndex).tmod 12
  let hourBlock := ((hour + 1).fdiv 2).tmod 12
  let hourStemIndex := (dayStemIndex + hourBlock).tmod 10
  let hourBranchIndex := hourBlock
  [⟨"Year", stemsList.getD ((yearStemIndex + 10).tmod 10).toNat "",
      branchesList.getD ((yearBranchIndex + 12).tmod 12).toNat ""⟩,
   ⟨"Month", stemsList.getD ((monthStemIndex + 10).tmod 10).toNat "",
      branchesList.getD ((monthBranchIndex + 12).tmod 12).toNat ""⟩,
   ⟨"Day", stemsList.getD ((dayStemIndex + 10).tmod 10).toNat "",
      branchesList.getD ((dayBranchIndex + 12).tmod 12).toNat ""⟩,
   ⟨"Hour", stemsList.getD ((hourStemIndex + 10).tmod 10).toNat "",
      branchesList.getD ((hourBranchIndex + 12).tmod 12).toNat ""⟩]

/-! ### Reason generator (`generateReasonForDate`, script.js lines 307-332) -/

/-- The activity-code to phrase switch of `generateReasonForDate`. -/
def activityPhrase (act : String) : String :=
  if act = "marriage" then "marriage"
  else if act = "travel" then "travel"
  else if act = "move" then "moving house/office"
  else if act = "contract" then "signing a contract"
  else if act = "business" then "launching a new business"
  else if act = "trading" then "trading or investment"
  else if act = "health" then "health matters"
  else act

/-- `generateReasonForDate(date, activities, isBad)`; the four random draws
it makes (door, star, deity, element) are passed in from the oracle. -/
def generateReasonForDate (date : Int) (activities : List String) (isBad : Bool)
    (dr sr dei el : ℚ) : String :=
  let activitiesList := activities.map activityPhrase
  let door := qiMenDoors.getD (floorIdx dr 8) ""
  let star := qiMenStars.getD (floorIdx sr 8) ""
  let deity := qiMenDeities.getD (floorIdx dei 8) ""
  let element := baziElements.getD (floorIdx el 5) ""
  let joined := String.intercalate ", " activitiesList
  if isBad then
    s!"Unfavorable influences for {joined}. Avoid these activities on this day because the {door} together with the {star} star and {deity} clash with your {element} element."
  else
    s!"Auspicious influences for {joined} thanks to the {door}, supported by the {star} star and {deity}, all harmonizing with your {element} element energies."

/-! ### Hour recommendations (`buildHourRecommendations`, script.js 244-260) -/

structure HourRec where
  activity : String
  time : String
deriving Repr, DecidableEq

/-- The inner `while (picks < slotsNeeded)` rejection loop of
`buildHourRecommendations` for one activity, with fuel.  `c` identifies the
enclosing `buildHourRecommendations` call, `a` counts its slot draws. -/
def slotLoop (g : Rng) (c : Nat) (act : String) :
    Nat → Nat → List String → Nat → Option (List HourRec × Nat)
  | 0, a, _, picks => if picks < 3 then none else some ([], a)
  | Nat.succ fuel, a, usedSlots, picks =>
    if picks < 3 then
      let slot := timeSlots.getD (floorIdx (g.slot c a) 9) ""
      if slot ∈ usedSlots then
        slotLoop g c act fuel (a + 1) usedSlots picks
      else
        match slotLoop g c act fuel (a + 1) (slot :: usedSlots) (picks + 1) with
        | none => none
        | some (rest, a2) => some (⟨act, slot⟩ :: rest, a2)
    else some ([], a)

/-- `buildHourRecommendations()`: the `activities.forEach` over `slotLoop`.
Returns the flat `hours` array and the next slot-draw index. -/
def buildHourRecommendations (g : Rng) (c : Nat) (fuel : Nat) :
    List String → Nat → Option (List HourRec × Nat)
  | [], a => some ([], a)
  | act :: rest, a =>
    match slotLoop g c act fuel a [] 0 with
    | none => none
    | some (hs, a1) =>
      match buildHourRecommendations g c fuel rest a1 with
      | none => none
      | some (hs2, a2) => some (hs ++ hs2, a2)

/-! ### Date sampler (`generateGoodDates`, script.js lines 207-297) -/

structure DayEntry where
  date : Int
  reasons : String
  hours : List HourRec
  bad : Bool
deriving Repr, DecidableEq

/-- Comparator of the final `results.sort((a, b) => a.date - b.date)`. -/
def dateLe (a b : DayEntry) : Prop := a.date ≤ b.date

instance : DecidableRel dateLe := fun a b => Int.decLe a.date b.date

instance : IsTotal DayEntry dateLe := ⟨fun a b => Int.le_total a.date b.date⟩

instance : IsTrans DayEntry dateLe := ⟨fun _ _ _ h1 h2 => le_trans h1 h2⟩

/-- The `numberOfSuggestions` if-chain of `generateGoodDates`. -/
def selectionCount (tradingSelected : Bool) (diffDays : Int) : Int :=
  if tradingSelected then diffDays
  else if diffDays ≤ 7 then min 3 diffDays
  else if diffDays ≤ 30 then min 6 diffDays
  else min 12 diffDays

/-- Trading branch of `generateGoodDates`: the `for` loop over every day of
the range.  `day` is the loop index `i`, the first argument the remaining
iteration count. -/
def tradingLoop (g : Rng) (activities : List String) (start : Int) (fuel : Nat) :
    Nat → Nat → Option (List DayEntry)
  | 0, _ => some []
  | Nat.succ n, day =>
    let currentDate := start + (day : Int)
    let isBad := decide (g.bad day < 1 / 10)
    let reasons := generateReasonForDate currentDate activities isBad
      (g.door day) (g.star day) (g.deity day) (g.element day)
    match buildHourRecommendations g day fuel activities 0 with
    | none => none
    | some (hs, _) =>
      match tradingLoop g activities start fuel n (day + 1) with
      | none => none
      | some rest =>
        some ({ date := currentDate, reasons := reasons, hours := hs, bad := isBad } :: rest)

/-- Non-trading branch of `generateGoodDates`: the
`while (selectedDates.size < numberOfSuggestions)` rejection loop, with
fuel.  `k` counts offset draws, `selectedDates` holds the chosen date keys. -/
def samplingLoop (g : Rng) (activities : List String) (start diffDays target : Int)
    (hfuel : Nat) : Nat → Nat → List Int → Option (List DayEntry)
  | 0, _, selectedDates =>
    if (selectedDates.length : Int) < target then none else some []
  | Nat.succ fuel, k, selectedDates =>
    if (selectedDates.length : Int) < target then
      let offset := Int.floor (g.offset k * (diffDays : ℚ))
      let candidate := start + offset
      if candidate ∈ selectedDates then
        samplingLoop g activities start diffDays target hfuel fuel (k + 1) selectedDates
      else
        let reasons := generateReasonForDate candidate activities false
          (g.door k) (g.star k) (g.deity k) (g.element k)
        match buildHourRecommendations g k hfuel activities 0 with
        | none => none
        | some (hs, _) =>
          match samplingLoop g activities start diffDays target hfuel fuel (k + 1)
              (candidate :: selectedDates) with
          | none => none
          | some rest =>
            some ({ date := candidate, reasons := reasons, hours := hs, bad := false } :: rest)
    else some []

/-- `generateGoodDates(start, end, activities)` of script.js.  Dates are day
serials; `fuel` bounds each rejection loop; `none` only on fuel
exhaustion. -/
def generateGoodDates (g : Rng) (fuel : Nat) (start endDate : Int)
    (activities : List String) : Option (List DayEntry) :=
  let diffDays := endDate - start + 1
  let tradingSelected := activities.contains "trading"
  let numberOfSuggestions := selectionCount tradingSelected diffDays
  if tradingSelected then
    match tradingLoop g activities start fuel diffDays.toNat 0 with
    | none => none
    | some results => some (List.insertionSort dateLe results)
  else
    match samplingLoop g activities start diffDays numberOfSuggestions fuel fuel 0 [] with
    | none => none
    | some results => some (List.insertionSort dateLe results)

/-! ### Legacy sampler (`generateGoodDates` of src/unnamed/part_000, lines 64-88) -/

structure LegacyEntry where
  date : Int
  reasons : String
deriving Repr, DecidableEq

def legacyDateLe (a b : LegacyEntry) : Prop := a.date ≤ b.date

instance : DecidableRel legacyDateLe := fun a b => Int.decLe a.date b.date

instance : IsTotal LegacyEntry legacyDateLe := ⟨fun a b => Int.le_total a.date b.date⟩

instance : IsTrans LegacyEntry legacyDateLe := ⟨fun _ _ _ h1 h2 => le_trans h1 h2⟩

/-- `generateReasonForDate` of the legacy file: deterministic template. -/
def legacyReasonForDate (activities : List String) : String :=
  let joined := String.intercalate ", " (activities.map activityPhrase)
  s!"Favorable for {joined} activities based on hypothetical Qi Men and BaZi alignment."

/-- The `while (selectedDates.size < numberOfSuggestions)` loop of the
legacy `generateGoodDates`. -/
def legacySamplingLoop (g : Rng) (activities : List String)
    (start diffDays target : Int) : Nat → Nat → List Int → Option (List LegacyEntry)
  | 0, _, selectedDates =>
    if (selectedDates.length : Int) < target then none else some []
  | Nat.succ fuel, k, selectedDates =>
    if (selectedDates.length : Int) < target then
      let offset := Int.floor (g.offset k * (diffDays : ℚ))
      let candidate := start + offset
      if candidate ∈ selectedDates then
        legacySamplingLoop g activities start diffDays target fuel (k + 1) selectedDates
      else
        match legacySamplingLoop g activities start diffDays target fuel (k + 1)
            (candidate :: selectedDates) with
        | none => none
        | some rest =>
          some ({ date := candidate, reasons := legacyReasonForDate activities } :: rest)
    else some []

/-- Legacy `generateGoodDates(start, end, activities)`:
always `min(6, diffDays)` suggestions, no trading path, no hours. -/
def legacyGenerateGoodDates (g : Rng) (fuel : Nat) (start endDate : Int)
    (activities : List String) : Option (List LegacyEntry) :=
  let diffDays := endDate - start + 1
  let numberOfSuggestions := min 6 diffDays
  match legacySamplingLoop g activities start diffDays numberOfSuggestions fuel 0 [] with
  | none => none
  | some results => some (List.insertionSort legacyDateLe results)

/-! ### Calendar grid renderer (`renderCalendarRange`, script.js lines 617-699)

Months are identified by their absolute index `mi = 12 * year + month0`
(`month0` 0-based, as in JS `Date.getMonth()`); `new Date(y, m, 1)`
normalizes an arbitrary integer month exactly by floor-division, and
comparison of first-of-month `Date`s coincides with comparison of month
indices.  Cell dates are converted back to day serials with the standard
civil-from-days algorithm that the JS `Date` implements. -/

inductive CellStatus where
  | none : CellStatus
  | favorable : CellStatus
  | unfavorable : CellStatus
deriving Repr, DecidableEq

inductive Cell where
  | empty : Cell
  | day : Nat → CellStatus → Cell
deriving Repr, DecidableEq

def monthYear (mi : Int) : Int := mi.fdiv 12

def monthM0 (mi : Int) : Nat := (mi.emod 12).toNat

/-- Proleptic-Gregorian leap year rule, as implemented by JS `Date`. -/
def isLeap (y : Int) : Bool := (y % 4 == 0 && y % 100 != 0) || y % 400 == 0

/-- `new Date(year, month + 1, 0).getDate()`: the day count of month
`m0` (0-based) of year `y`. -/
def daysInMonth (y : Int) (m0 : Nat) : Nat :=
  [31, if isLeap y then 29 else 28, 31, 30, 31, 30, 31, 31, 30, 31, 30, 31].getD m0 31

/-- Day serial of the civil date (`y`, `m0` 0-based, day `d`), with serial 0
at 1970-01-01, matching `new Date(y, m0, d).getTime() / 86400000`. -/
def daysFromCivil (y : Int) (m0 : Nat) (d : Int) : Int :=
  let m : Int := (m0 : Int) + 1
  let yAdj := if m ≤ 2 then y - 1 else y
  let era := yAdj.fdiv 400
  let yoe := yAdj - era * 400
  let mp := (m + 9).emod 12
  let doy := (153 * mp + 2).fdiv 5 + d - 1
  let doe := yoe * 365 + yoe.fdiv 4 - yoe.fdiv 100 + doy
  era * 146097 + doe - 719468

/-- `firstDay.getDay()` for the first of month `mi` (serial 0 = Thursday). -/
def firstWeekday (mi : Int) : Nat :=
  ((daysFromCivil (monthYear mi) (monthM0 mi) 1 + 4) % 7).toNat

/-- The `badDateSet` of `renderCalendarRange`. -/
def badDates (entries : List DayEntry) : List Int :=
  (entries.filter (fun e => e.bad)).map (fun e => e.date)

/-- The `goodDateSet` of `renderCalendarRange`. -/
def goodDates (entries : List DayEntry) : List Int :=
  (entries.filter (fun e => !e.bad)).map (fun e => e.date)

/-- Cell classification of `renderMonth`: `bad-date` checked before
`good-date`, otherwise unhighlighted. -/
def statusOf (entries : List DayEntry) (serial : Int) : CellStatus :=
  if serial ∈ badDates entries then CellStatus.unfavorable
  else if serial ∈ goodDates entries then CellStatus.favorable
  else CellStatus.none

/-- The inner `for (j = 0; j < 7; j++)` cell loop of `renderMonth`; first
argument the remaining cell count, then the cell index `j` and the running
`dateCounter`. -/
def rowLoop (firstRow : Bool) (fw totalDays : Nat) (status : Nat → CellStatus) :
    Nat → Nat → Nat → List Cell × Nat
  | 0, _, dc => ([], dc)
  | Nat.succ m, j, dc =>
    if firstRow ∧ j < fw then
      let r := rowLoop firstRow fw totalDays status m (j + 1) dc
      (Cell.empty :: r.1, r.2)
    else if totalDays < dc then
      let r := rowLoop firstRow fw totalDays status m (j + 1) dc
      (Cell.empty :: r.1, r.2)
    else
      let r := rowLoop firstRow fw totalDays status m (j + 1) (dc + 1)
      (Cell.day dc (status dc) :: r.1, r.2)

/-- The outer `for (i = 0; i < 6; i++)` week loop of `renderMonth`, with its
`if (dateCounter > totalDays) break`. -/
def gridLoop (fw totalDays : Nat) (status : Nat → CellStatus) :
    Nat → Nat → Nat → List (List Cell)
  | 0, _, _ => []
  | Nat.succ m, i, dc =>
    let r := rowLoop (i == 0) fw totalDays status 7 0 dc
    r.1 :: (if totalDays < r.2 then [] else gridLoop fw totalDays status m (i + 1) r.2)

/-- `renderMonth` of `renderCalendarRange`: one week-grid for month `mi`. -/
def renderMonthGrid (entries : List DayEntry) (mi : Int) : List (List Cell) :=
  let y := monthYear mi
  let m0 := monthM0 mi
  let fw := firstWeekday mi
  let td := daysInMonth y m0
  gridLoop fw td (fun dc => statusOf entries (daysFromCivil y m0 (dc : Int))) 6 0 1

/-- The `while (current <= last)` month loop of `renderCalendarRange`. -/
def monthLoop (entries : List DayEntry) (last : Int) (mi : Int) :
    List (List (List Cell)) :=
  if h : mi ≤ last then renderMonthGrid entries mi :: monthLoop entries last (mi + 1)
  else []
termination_by (last + 1 - mi).toNat
decreasing_by omega

/-- `renderCalendarRange(goodDates, container, startDate, endDate)`:
one grid per month from the month of `startDate` to the month of
`endDate`. -/
def renderCalendarRange (entries : List DayEntry) (startMonth endMonth : Int) :
    List (List (List Cell)) :=
  monthLoop entries endMonth startMonth

/-! ### Override chart persistence (script.js lines 50-63 and 414-431)

`JSON.stringify`/`JSON.parse` are platform builtins; they are embedded here
for the exact shape the override path produces: an array of
`{"pillar":…,"stem":…,"branch":…}` objects whose values are quote-free
strings (stems and branches come from the fixed dropdowns). -/

def quoteC : Char := '\"'

def lbraceC : Char := '\x7b'

def rbraceC : Char := '\x7d'

def encodeJsonString (s : String) : List Char := quoteC :: (s.data ++ [quoteC])

/-- `JSON.stringify` of one `{pillar, stem, branch}` object (insertion-order
keys, no whitespace). -/
def encodePillarJson (p : Pillar) : List Char :=
  [lbraceC] ++ encodeJsonString "pillar" ++ [':'] ++ encodeJsonString p.pillar
    ++ [','] ++ encodeJsonString "stem" ++ [':'] ++ encodeJsonString p.stem
    ++ [','] ++ encodeJsonString "branch" ++ [':'] ++ encodeJsonString p.branch
    ++ [rbraceC]

/-- The comma-joined object list inside `JSON.stringify`'s array output. -/
def encodeItems : List Pillar → List Char
  | [] => []
  | [p] => encodePillarJson p
  | p :: rest => encodePillarJson p ++ ',' :: encodeItems rest

/-- `JSON.stringify(overrideChart)`. -/
def encodeChartJson (chart : List Pillar) : List Char :=
  '[' :: encodeItems chart ++ [']']

def parseStringBody : List Char → Option (List Char × List Char)
  | [] => none
  | c :: rest =>
    if c = quoteC then some ([], rest)
    else
      match parseStringBody rest with
      | none => none
      | some (s, r) => some (c :: s, r)

def parseJsonString : List Char → Option (List Char × List Char)
  | c :: rest => if c = quoteC then parseStringBody rest else none
  | [] => none

def parseExact : List Char → List Char → Option (List Char)
  | [], input => some input
  | e :: es, input =>
    match input with
    | [] => none
    | c :: cs => if c = e then parseExact es cs else none

def parseKeyValue (key : String) (input : List Char) : Option (List Char × List Char) :=
  match parseExact (encodeJsonString key ++ [':']) input with
  | none => none
  | some rest => parseJsonString rest

def parsePillarJson : List Char → Option (Pillar × List Char)
  | [] => none
  | c :: rest =>
    if c = lbraceC then
      match parseKeyValue "pillar" rest with
      | none => none
      | some (v1, r1) =>
        match parseExact [','] r1 with
        | none => none
        | some r1b =>
          match parseKeyValue "stem" r1b with
          | none => none
          | some (v2, r2) =>
            match parseExact [','] r2 with
            | none => none
            | some r2b =>
              match parseKeyValue "branch" r2b with
              | none => none
              | some (v3, r3) =>
                match parseExact [rbraceC] r3 with
                | none => none
                | some r4 => some (⟨String.mk v1, String.mk v2, String.mk v3⟩, r4)
    else none

def parseItems : Nat → List Char → Option (List Pillar × List Char)
  | 0, _ => none
  | Nat.succ fuel, input =>
    match parsePillarJson input with
    | none => none
    | some (p, rest) =>
      match rest with
      | c :: rest2 =>
        if c = ',' then
          match parseItems fuel rest2 with
          | none => none
          | some (ps, r) => some (p :: ps, r)
        else if c = ']' then some ([p], rest2)
        else none
      | [] => none

/-- `JSON.parse` restricted to the chart schema. -/
def parseChartJson (s : String) : Option (List Pillar) :=
  match s.data with
  | c :: rest =>
    if c = '[' then
      match rest with
      | d :: _ =>
        if d = ']' then some []
        else
          match parseItems (rest.length + 1) rest with
          | none => none
          | some (ps, _) => some ps
      | [] => none
    else none
  | [] => none

/-- The external `localStorage` collaborator as a key-value list. -/
abbrev Store := List (String × String)

def setItem (st : Store) (k v : String) : Store := (k, v) :: st

def getItem (st : Store) (k : String) : Option String :=
  match st.find? (fun kv => kv.1 == k) with
  | none => none
  | some kv => some kv.2

/-- The `applyOverrideBtn` click handler's persistence step:
`localStorage.setItem('baziOverride', JSON.stringify(overrideChart))`. -/
def saveOverrideChart (st : Store) (chart : List Pillar) : Store :=
  setItem st "baziOverride" (String.mk (encodeChartJson chart))

/-- The override branch of `loadProfile`:
`JSON.parse(localStorage.getItem('baziOverride'))`. -/
def loadOverrideChart (st : Store) : Option (List Pillar) :=
  match getItem st "baziOverride" with
  | none => none
  | some s => parseChartJson s

/-- A chart is a well-formed FourPillarsChart: the four pillars in
Year/Month/Day/Hour order with stems and branches drawn from the fixed
tables (the only charts the override dropdowns can produce). -/
def WellFormedChart (chart : List Pillar) : Prop :=
  chart.map Pillar.pillar = ["Year", "Month", "Day", "Hour"] ∧
    (∀ p ∈ chart, p.stem ∈ stemsList ∧ p.branch ∈ branchesList)

/-- A trivial all-zeros oracle, used for concrete evaluations. -/
def zeroRng : Rng :=
  { bad := fun _ => 0, offset := fun _ => 0, slot := fun _ _ => 0,
    door := fun _ => 0, star := fun _ => 0, deity := fun _ => 0,
    element := fun _ => 0 }

/-! ### Concrete oracle for witnesses -/

/-- An oracle with enumerated draws under which the rejection loops
terminate: offsets sweep the range, slot draws sweep the slot table. -/
def wRng : Rng :=
  { bad := fun _ => 0,
    offset := fun k => ((k % 30 : Nat) : ℚ) / 30,
    slot := fun _ a => ((a % 9 : Nat) : ℚ) / 9,
    door := fun _ => 0, star := fun _ => 0, deity := fun _ => 0,
    element := fun _ => 0 }

/-- Fields of the chart contain no quote character (true of every chart the
override dropdowns can build). -/
def QuoteFreeChart (chart : List Pillar) : Prop :=
  ∀ p ∈ chart, quoteC ∉ p.pillar.data ∧ quoteC ∉ p.stem.data ∧ quoteC ∉ p.branch.data

/-- A concrete well-formed chart for the C9 witness. -/
def wChart : List Pillar :=
  [⟨"Year", "Jia", "Zi"⟩, ⟨"Month", "Yi", "Chou"⟩,
   ⟨"Day", "Bing", "Yin"⟩, ⟨"Hour", "Ding", "Mao"⟩]

theorem floorIdx_lt {r : ℚ} (h : Unit01 r) {n : Nat} (hn : 0 < n) :
    floorIdx r n < n := by
  have h1 : Int.floor (r * (n : ℚ)) < (n : Int) := by
    rw [Int.floor_lt]
    push_cast
    calc r * (n : ℚ) < 1 * (n : ℚ) := by
          apply mul_lt_mul_of_pos_right h.2
          exact_mod_cast hn
      _ = (n : ℚ) := one_mul _
  have h2 : (0 : Int) ≤ Int.floor (r * (n : ℚ)) := by
    apply Int.floor_nonneg.2
    apply mul_nonneg h.1
    positivity
  unfold floorIdx
  omega

/-! ### JS truncating `%` facts -/

theorem tmod_emod (x n : Int) : (x.tmod n) % n = x % n := by
  conv_rhs => rw [← Int.tmod_add_tdiv x n]
  rw [Int.add_mul_emod_self_left]

theorem tmod_gt_neg (x : Int) {n : Int} (hn : 0 < n) : -n < x.tmod n := by
  match x with
  | Int.ofNat m =>
      have h0 : (0 : Int) ≤ Int.tmod (Int.ofNat m) n :=
        Int.tmod_nonneg n (Int.ofNat_nonneg m)
      omega
  | Int.negSucc m =>
      match n, hn with
      | Int.ofNat k, hn =>
          have hk : 0 < k := by
            simp only [Int.ofNat_eq_coe] at hn
            exact_mod_cast hn
          have hmod : (m + 1) % k < k := Nat.mod_lt _ hk
          show -(Int.ofNat k) < -(Int.ofNat ((m + 1) % k))
          simp only [Int.ofNat_eq_coe]
          omega

/-- Source normalization `(i + n) % n` applied to a JS `%`-result agrees
with mathematical (Euclidean) mod. -/
theorem tmod_norm (x : Int) {n : Int} (hn : 0 < n) :
    (x.tmod n + n).tmod n = x % n := by
  have hlow : -n < x.tmod n := tmod_gt_neg x hn
  have h0 : 0 ≤ x.tmod n + n := by omega
  rw [Int.tmod_eq_emod h0 (le_of_lt hn), Int.add_emod_self, tmod_emod]

theorem tmod_norm_nonneg (x : Int) {n : Int} (hn : 0 < n) :
    0 ≤ (x.tmod n + n).tmod n := by
  rw [tmod_norm x hn]
  exact Int.emod_nonneg x (by omega)

theorem tmod_norm_lt (x : Int) {n : Int} (hn : 0 < n) :
    (x.tmod n + n).tmod n < n := by
  rw [tmod_norm x hn]
  exact Int.emod_lt_of_pos x hn

theorem add_tmod_right_emod (a x n : Int) : (a + x.tmod n) % n = (a + x % n) % n := by
  rw [Int.add_emod_emod, Int.add_emod, tmod_emod, ← Int.add_emod]

theorem add_congr_emod (a x y n : Int) (h : x % n = y % n) :
    (a + x) % n = (a + y) % n := by
  rw [Int.add_emod, h, ← Int.add_emod]

/-! ### Helper lemmas for table lookups -/

theorem getD_mem {l : List String} {n : Nat} (h : n < l.length) (d : String) :
    l.getD n d ∈ l := by
  rw [List.getD_eq_getElem l d h]
  exact List.getElem_mem h

theorem norm_tmod_toNat_lt (x : Int) {n : Int} (hn : 0 < n) :
    ((x.tmod n + n).tmod n).toNat < n.toNat := by
  have h1 := tmod_norm_nonneg x hn
  have h2 := tmod_norm_lt x hn
  omega

/-! ### Claims C2 and C8: the pillar calculator -/

/-- C2: `computePillars` (`calculateBaZi`) returns exactly the four pillars
Year/Month/Day/Hour whose stem and branch labels index the fixed tables by
the spec's formulas (with `mod` the mathematical, nonnegative remainder):
yearStem = (year-4) mod 10, yearBranch = (year-4) mod 12,
monthStem = (month+yearStem) mod 10, monthBranch = (month+1) mod 12,
dayStem = (day+monthStem) mod 10, dayBranch = (day+monthBranch) mod 12,
hourBlock = floor((hour+1)/2) mod 12, hourStem = (dayStem+hourBlock) mod 10,
hourBranch = hourBlock; and on input (1984, 1, 1, hour=0) the Year pillar
carries the first element of both tables. -/
theorem c2_computePillars_formula (year month day hour : Int)
    (h0 : 0 ≤ hour) (h23 : hour ≤ 23) :
    (calculateBaZi year month day hour =
      [⟨"Year", stemsList.getD ((year - 4) % 10).toNat "",
          branchesList.getD ((year - 4) % 12).toNat ""⟩,
       ⟨"Month", stemsList.getD ((month + (year - 4) % 10) % 10).toNat "",
          branchesList.getD ((month + 1) % 12).toNat ""⟩,
       ⟨"Day", stemsList.getD ((day + (month + (year - 4) % 10) % 10) % 10).toNat "",
          branchesList.getD ((day + (month + 1) % 12) % 12).toNat ""⟩,
       ⟨"Hour", stemsList.getD (((day + (month + (year - 4) % 10) % 10) % 10
              + ((hour + 1) / 2) % 12) % 10).toNat "",
          branchesList.getD (((hour + 1) / 2) % 12).toNat ""⟩]) ∧
      (calculateBaZi 1984 1 1 0).head? =
        some ⟨"Year", stemsList.getD 0 "", branchesList.getD 0 ""⟩ := by
  constructor
  · have h10 : (0 : Int) < 10 := by norm_num
    have h12 : (0 : Int) < 12 := by norm_num
    -- abbreviations for the truncated-mod intermediate indices of the source
    set yst := (year - 4).tmod 10 with hyst
    set mst := (month + yst).tmod 10 with hmst
    set mbt := (month + 1).tmod 12 with hmbt
    set dst := (day + mst).tmod 10 with hdst
    set dbt := (day + mbt).tmod 12 with hdbt
    have hq : ((hour + 1).fdiv 2) = (hour + 1) / 2 :=
      Int.fdiv_eq_ediv _ (by norm_num)
    have hqpos : 0 ≤ (hour + 1) / 2 := Int.ediv_nonneg (by omega) (by norm_num)
    have hhb : ((hour + 1).fdiv 2).tmod 12 = ((hour + 1) / 2) % 12 := by
      rw [hq, Int.tmod_eq_emod hqpos (by norm_num)]
    -- congruences of the intermediate indices with the spec values
    have hys : yst % 10 = (year - 4) % 10 := tmod_emod _ _
    have hms : mst % 10 = (month + (year - 4) % 10) % 10 := by
      rw [hmst, tmod_emod, add_congr_emod month yst ((year - 4) % 10) 10]
      rw [hys, Int.emod_emod]
    have hmb : mbt % 12 = (month + 1) % 12 := tmod_emod _ _
    have hds : dst % 10 = (day + (month + (year - 4) % 10) % 10) % 10 := by
      rw [hdst, tmod_emod, add_congr_emod day mst ((month + (year - 4) % 10) % 10) 10]
      rw [hms, Int.emod_emod]
    have hdb : dbt % 12 = (day + (month + 1) % 12) % 12 := by
      rw [hdbt, tmod_emod, add_congr_emod day mbt ((month + 1) % 12) 12]
      rw [hmb, Int.emod_emod]
    have hhs : (dst + ((hour + 1).fdiv 2).tmod 12) % 10 =
        ((day + (month + (year - 4) % 10) % 10) % 10 + ((hour + 1) / 2) % 12) % 10 := by
      rw [hhb, Int.add_comm dst, Int.add_comm ((day + (month + (year - 4) % 10) % 10) % 10)]
      rw [add_congr_emod _ dst _ 10]
      rw [hds, Int.emod_emod]
    have hms' : (month + yst) % 10 = (month + (year - 4) % 10) % 10 :=
      (tmod_emod (month + yst) 10).symm.trans hms
    have hds' : (day + mst) % 10 = (day + (month + (year - 4) % 10) % 10) % 10 :=
      (tmod_emod (day + mst) 10).symm.trans hds
    have hdb' : (day + mbt) % 12 = (day + (month + 1) % 12) % 12 :=
      (tmod_emod (day + mbt) 12).symm.trans hdb
    simp only [calculateBaZi]
    rw [tmod_norm (year - 4) h10, tmod_norm (year - 4) h12]
    rw [tmod_norm (month + yst) h10, tmod_norm (month + 1) h12]
    rw [tmod_norm (day + mst) h10, tmod_norm (day + mbt) h12]
    rw [tmod_norm (dst + ((hour + 1).fdiv 2).tmod 12) h10]
    rw [tmod_norm ((hour + 1).fdiv 2) h12]
    rw [hms', hds', hdb', hhs, hq]
  · decide

/-- Witness for C2 at the concrete anchor input (1984-01-01, hour 0). -/
theorem c2_computePillars_formula_witness :
    (calculateBaZi 1984 1 1 0).head? =
      some ⟨"Year", stemsList.getD 0 "", branchesList.getD 0 ""⟩ :=
  (c2_computePillars_formula 1984 1 1 0 (by norm_num) (by norm_num)).2

/-- C8: `computePillars` (`calculateBaZi`) is total over integer inputs:
for every integer year, month, day and hour it returns a complete chart of
four pillars in Year/Month/Day/Hour order, every stem label being an
element of the 10-stem table and every branch label an element of the
12-branch table (all lookup indices normalized into range by the
`(i + modulus) % modulus` guard). -/
theorem c8_calculateBaZi_total (year month day hour : Int) :
    (calculateBaZi year month day hour).length = 4 ∧
      (calculateBaZi year month day hour).map Pillar.pillar =
        ["Year", "Month", "Day", "Hour"] ∧
      ∀ p ∈ calculateBaZi year month day hour,
        p.stem ∈ stemsList ∧ p.branch ∈ branchesList := by
  refine ⟨rfl, rfl, ?_⟩
  intro p hp
  simp only [calculateBaZi, List.mem_cons, List.not_mem_nil, or_false] at hp
  have hs : ∀ x : Int, ((x.tmod 10 + 10).tmod 10).toNat < stemsList.length := by
    intro x
    have := norm_tmod_toNat_lt x (show (0 : Int) < 10 by norm_num)
    simpa [stemsList] using this
  have hb : ∀ x : Int, ((x.tmod 12 + 12).tmod 12).toNat < branchesList.length := by
    intro x
    have := norm_tmod_toNat_lt x (show (0 : Int) < 12 by norm_num)
    simpa [branchesList] using this
  rcases hp with h | h | h | h <;> subst h <;>
    exact ⟨getD_mem (hs _) _, getD_mem (hb _) _⟩

/-! ### Claim C4: invalid ranges -/

theorem samplingLoop_stop (g : Rng) (activities : List String)
    (start diffDays target : Int) (hfuel fuel k : Nat) (sel : List Int)
    (h : ¬ ((sel.length : Int) < target)) :
    samplingLoop g activities start diffDays target hfuel fuel k sel = some [] := by
  cases fuel <;> simp [samplingLoop, h]

theorem legacySamplingLoop_stop (g : Rng) (activities : List String)
    (start diffDays target : Int) (fuel k : Nat) (sel : List Int)
    (h : ¬ ((sel.length : Int) < target)) :
    legacySamplingLoop g activities start diffDays target fuel k sel = some [] := by
  cases fuel <;> simp [legacySamplingLoop, h]

/-- C4 counterexample: on the invalid range start = 3, end = 1 (end strictly
before start) `generateGoodDates` silently returns zero entries (`some []`)
on both the non-trading and the trading path; it raises no
`InvalidRangeError` (no such error exists in the code — the function's only
outcomes are entry lists, and fuel exhaustion of the model's loops). -/
theorem c4_counterexample :
    generateGoodDates zeroRng 5 3 1 ["marriage"] = some [] ∧
      generateGoodDates zeroRng 5 3 1 ["trading"] = some [] := by
  constructor <;> rfl

/-- C4 amended: for every invalid range (end strictly before start) the
sampler returns an empty entry list, silently and without any error; range
validation is the caller's `alert`-and-return, outside the core. -/
theorem c4_invalid_range_silent (g : Rng) (fuel : Nat) (start endDate : Int)
    (activities : List String) (h : endDate < start) :
    generateGoodDates g fuel start endDate activities = some [] := by
  have hd : endDate - start + 1 ≤ 0 := by omega
  simp only [generateGoodDates]
  cases hc : activities.contains "trading" with
  | true =>
      simp only [hc, if_true]
      have h0 : (endDate - start + 1).toNat = 0 := by omega
      rw [h0]
      simp [tradingLoop, List.insertionSort]
  | false =>
      simp only [hc, Bool.false_eq_true, if_false]
      have htar : ¬ ((([] : List Int).length : Int) < selectionCount false (endDate - start + 1)) := by
        simp only [selectionCount, Bool.false_eq_true, if_false, List.length_nil,
          Int.natCast_zero]
        split_ifs <;> omega
      rw [samplingLoop_stop g activities start (endDate - start + 1) _ fuel fuel 0 [] htar]
      simp [List.insertionSort]

/-- Witness for the amended C4 at a concrete invalid range. -/
theorem c4_invalid_range_silent_witness :
    generateGoodDates zeroRng 7 10 8 ["travel"] = some [] :=
  c4_invalid_range_silent zeroRng 7 10 8 ["travel"] (by norm_num)

/-! ### Hour-recommendation lemmas -/

theorem offset_floor_bounds {r : ℚ} (h : Unit01 r) {d : Int} (hd : 0 < d) :
    0 ≤ Int.floor (r * (d : ℚ)) ∧ Int.floor (r * (d : ℚ)) ≤ d - 1 := by
  constructor
  · exact Int.floor_nonneg.2 (mul_nonneg h.1 (by exact_mod_cast hd.le))
  · have hlt : Int.floor (r * (d : ℚ)) < d := by
      rw [Int.floor_lt]
      calc r * (d : ℚ) < 1 * (d : ℚ) :=
            mul_lt_mul_of_pos_right h.2 (by exact_mod_cast hd)
        _ = ((d : Int) : ℚ) := one_mul _
    omega

theorem slotLoop_spec (g : Rng) (c : Nat) (act : String) :
    ∀ fuel a usedSlots picks recs a2,
      slotLoop g c act fuel a usedSlots picks = some (recs, a2) →
      recs.length = 3 - picks ∧
        (∀ hr ∈ recs, hr.activity = act) ∧
        ((recs.map fun hr => hr.time).Nodup) ∧
        (∀ hr ∈ recs, hr.time ∉ usedSlots) ∧
        (ValidRng g → ∀ hr ∈ recs, hr.time ∈ timeSlots) := by
  intro fuel
  induction fuel with
  | zero =>
      intro a usedSlots picks recs a2 h
      simp only [slotLoop] at h
      split at h
      · simp at h
      · rename_i hp
        rw [Option.some.injEq, Prod.mk.injEq] at h
        obtain ⟨rfl, rfl⟩ := h
        refine ⟨by simp only [List.length_nil]; omega, by simp, by simp, by simp, by simp⟩
  | succ fuel ih =>
      intro a usedSlots picks recs a2 h
      simp only [slotLoop] at h
      split at h
      · rename_i hp
        split at h
        · rename_i hmem
          exact ih _ _ _ _ _ h
        · rename_i hmem
          split at h
          · simp at h
          · rename_i rest a3 heq
            rw [Option.some.injEq, Prod.mk.injEq] at h
            obtain ⟨rfl, rfl⟩ := h
            obtain ⟨ihlen, ihact, ihnd, ihused, ihmem⟩ :=
              ih (a + 1) _ (picks + 1) rest _ heq
            refine ⟨?_, ?_, ?_, ?_, ?_⟩
            · simp only [List.length_cons, ihlen]; omega
            · intro hr hhr
              rcases List.mem_cons.1 hhr with rfl | hhr
              · rfl
              · exact ihact hr hhr
            · rw [List.map_cons, List.nodup_cons]
              refine ⟨?_, ihnd⟩
              intro hcon
              obtain ⟨hr, hhr, htime⟩ := List.mem_map.1 hcon
              exact ihused hr hhr (htime ▸ List.mem_cons_self _ _)
            · intro hr hhr
              rcases List.mem_cons.1 hhr with rfl | hhr
              · exact hmem
              · intro hin
                exact ihused hr hhr (List.mem_cons_of_mem _ hin)
            · intro hval hr hhr
              rcases List.mem_cons.1 hhr with rfl | hhr
              · have h9 : floorIdx (g.slot c a) 9 < timeSlots.length := by
                  have := floorIdx_lt (hval.2.2.1 c a) (show 0 < 9 by norm_num)
                  simpa [timeSlots] using this
                exact getD_mem h9 ""
              · exact ihmem hval hr hhr
      · rename_i hp
        rw [Option.some.injEq, Prod.mk.injEq] at h
        obtain ⟨rfl, rfl⟩ := h
        refine ⟨by simp only [List.length_nil]; omega, by simp, by simp, by simp, by simp⟩

theorem buildHourRecommendations_spec (g : Rng) (c : Nat) (fuel : Nat) :
    ∀ acts a0 hs a1,
      buildHourRecommendations g c fuel acts a0 = some (hs, a1) →
      (∀ hr ∈ hs, hr.activity ∈ acts) ∧
        (acts.Nodup → ∀ act ∈ acts,
          (hs.filter fun hr => hr.activity == act).length = 3 ∧
            ((hs.filter fun hr => hr.activity == act).map fun hr => hr.time).Nodup ∧
            (ValidRng g → ∀ hr ∈ hs.filter (fun hr => hr.activity == act),
              hr.time ∈ timeSlots)) := by
  intro acts
  induction acts with
  | nil =>
      intro a0 hs a1 h
      simp only [buildHourRecommendations, Option.some.injEq, Prod.mk.injEq] at h
      obtain ⟨rfl, rfl⟩ := h
      exact ⟨by simp, by simp⟩
  | cons act rest ih =>
      intro a0 hs a1 h
      simp only [buildHourRecommendations] at h
      split at h
      · simp at h
      · rename_i hsa a2 hslot
        split at h
        · simp at h
        · rename_i hs2 a3 hrest
          rw [Option.some.injEq, Prod.mk.injEq] at h
          obtain ⟨rfl, rfl⟩ := h
          obtain ⟨hlen, hact, hnd, hused, hmem⟩ :=
            slotLoop_spec g c act fuel a0 [] 0 hsa _ hslot
          obtain ⟨ihmem, ihfacts⟩ := ih _ _ _ hrest
          constructor
          · intro hr hhr
            rcases List.mem_append.1 hhr with hhr | hhr
            · rw [hact hr hhr]
              exact List.mem_cons_self _ _
            · exact List.mem_cons_of_mem _ (ihmem hr hhr)
          · intro hnodup act' hact'
            have hndrest : rest.Nodup := (List.nodup_cons.1 hnodup).2
            have hnotin : act ∉ rest := (List.nodup_cons.1 hnodup).1
            rw [List.filter_append]
            rcases List.mem_cons.1 hact' with rfl | hmem'
            · have hfilter1 : hsa.filter (fun hr => hr.activity == act') = hsa := by
                apply List.filter_eq_self.2
                intro hr hhr
                simp [hact hr hhr]
              have hfilter2 : hs2.filter (fun hr => hr.activity == act') = [] := by
                apply List.filter_eq_nil_iff.2
                intro hr hhr
                have hin : hr.activity ∈ rest := ihmem hr hhr
                simp only [beq_iff_eq]
                intro hcon
                exact hnotin (hcon ▸ hin)
              rw [hfilter1, hfilter2, List.append_nil]
              refine ⟨by rw [hlen], hnd, fun hv hr hhr => hmem hv hr hhr⟩
            · have hfilter1 : hsa.filter (fun hr => hr.activity == act') = [] := by
                apply List.filter_eq_nil_iff.2
                intro hr hhr
                have heq := hact hr hhr
                simp only [beq_iff_eq, heq]
                intro hcon
                exact hnotin (hcon ▸ hmem')
              rw [hfilter1, List.nil_append]
              exact ihfacts hndrest act' hmem'

/-! ### Sampling-loop lemmas -/

theorem tradingLoop_spec (g : Rng) (acts : List String) (start : Int) (fuel : Nat) :
    ∀ n day res,
      tradingLoop g acts start fuel n day = some res →
      res.length = n ∧
        (∀ m (hm : m < res.length),
          (res.get ⟨m, hm⟩).date = start + (day : Int) + (m : Int) ∧
            (res.get ⟨m, hm⟩).bad = decide (g.bad (day + m) < 1 / 10)) ∧
        (∀ e ∈ res, start + (day : Int) ≤ e.date ∧
          e.date ≤ start + (day : Int) + (n : Int) - 1 ∧
          ∃ cc a1, buildHourRecommendations g cc fuel acts 0 = some (e.hours, a1)) ∧
        (res.map fun e => e.date).Nodup ∧
        List.Sorted dateLe res := by
  intro n
  induction n with
  | zero =>
      intro day res h
      simp only [tradingLoop, Option.some.injEq] at h
      subst h
      exact ⟨rfl, by simp, by simp, by simp, by simp⟩
  | succ n ih =>
      intro day res h
      simp only [tradingLoop] at h
      split at h
      · simp at h
      · rename_i hs a1 hbuild
        split at h
        · simp at h
        · rename_i rest hrest
          rw [Option.some.injEq] at h
          subst h
          obtain ⟨ihlen, ihidx, ihmem, ihnd, ihsort⟩ := ih _ _ hrest
          refine ⟨by simp [ihlen], ?_, ?_, ?_, ?_⟩
          · intro m hm
            cases m with
            | zero =>
                constructor
                · show start + (day : Int) = start + (day : Int) + ((0 : Nat) : Int)
                  push_cast
                  ring
                · show decide (g.bad day < 1 / 10) = decide (g.bad (day + 0) < 1 / 10)
                  norm_num
            | succ m =>
                have hm' : m < rest.length := by
                  simp only [List.length_cons] at hm
                  omega
                obtain ⟨hdate, hbad⟩ := ihidx m hm'
                constructor
                · show (rest.get ⟨m, hm'⟩).date = start + (day : Int) + ((m + 1 : Nat) : Int)
                  rw [hdate]
                  push_cast
                  ring
                · show (rest.get ⟨m, hm'⟩).bad = decide (g.bad (day + (m + 1)) < 1 / 10)
                  have harith : day + 1 + m = day + (m + 1) := by omega
                  rw [hbad, harith]
          · intro e he
            rcases List.mem_cons.1 he with rfl | he
            · refine ⟨?_, ?_, day, a1, hbuild⟩
              · show start + (day : Int) ≤ start + (day : Int)
                exact le_refl _
              · show start + (day : Int) ≤ start + (day : Int) + ((n + 1 : Nat) : Int) - 1
                push_cast
                omega
            · obtain ⟨hlow, hhigh, hex⟩ := ihmem e he
              refine ⟨?_, ?_, hex⟩
              · have : ((day + 1 : Nat) : Int) = (day : Int) + 1 := by push_cast; ring
                rw [this] at hlow
                omega
              · have h1 : ((day + 1 : Nat) : Int) = (day : Int) + 1 := by push_cast; ring
                have h2 : ((n + 1 : Nat) : Int) = (n : Int) + 1 := by push_cast; ring
                rw [h1] at hhigh
                rw [h2]
                omega
          · rw [List.map_cons, List.nodup_cons]
            refine ⟨?_, ihnd⟩
            intro hcon
            obtain ⟨e, he, hdate⟩ := List.mem_map.1 hcon
            obtain ⟨hlow, _, _⟩ := ihmem e he
            have hdate' : e.date = start + (day : Int) := hdate
            have hcast : ((day + 1 : Nat) : Int) = (day : Int) + 1 := by push_cast; ring
            rw [hcast] at hlow
            omega
          · rw [List.sorted_cons]
            refine ⟨?_, ihsort⟩
            intro e he
            obtain ⟨hlow, _, _⟩ := ihmem e he
            have : ((day + 1 : Nat) : Int) = (day : Int) + 1 := by push_cast; ring
            rw [this] at hlow
            show start + (day : Int) ≤ e.date
            omega

theorem samplingLoop_spec (g : Rng) (acts : List String) (start diffDays target : Int)
    (hfuel : Nat) :
    ∀ fuel k sel res,
      samplingLoop g acts start diffDays target hfuel fuel k sel = some res →
      ((sel.length : Int) < target → (res.length : Int) + sel.length = target) ∧
        (¬ ((sel.length : Int) < target) → res = []) ∧
        (∀ e ∈ res, e.bad = false ∧ e.date ∉ sel ∧
          (∃ kk a1, buildHourRecommendations g kk hfuel acts 0 = some (e.hours, a1)) ∧
          (ValidRng g → 0 < diffDays →
            start ≤ e.date ∧ e.date ≤ start + diffDays - 1)) ∧
        (res.map fun e => e.date).Nodup := by
  intro fuel
  induction fuel with
  | zero =>
      intro k sel res h
      simp only [samplingLoop] at h
      split at h
      · simp at h
      · rename_i hc
        rw [Option.some.injEq] at h
        subst h
        exact ⟨fun hlt => absurd hlt hc, fun _ => rfl, by simp, by simp⟩
  | succ fuel ih =>
      intro k sel res h
      simp only [samplingLoop] at h
      split at h
      · rename_i hc
        split at h
        · rename_i hmem
          obtain ⟨h1, h2, h3, h4⟩ := ih _ _ _ h
          exact ⟨fun _ => h1 hc, fun hn => absurd hc hn, h3, h4⟩
        · rename_i hmem
          split at h
          · simp at h
          · rename_i hs a1 hbuild
            split at h
            · simp at h
            · rename_i rest hrest
              rw [Option.some.injEq] at h
              subst h
              obtain ⟨h1, h2, h3, h4⟩ := ih _ _ _ hrest
              have hsel : (((start + Int.floor (g.offset k * (diffDays : ℚ))) :: sel).length : Int)
                  = (sel.length : Int) + 1 := by
                simp
              refine ⟨?_, fun hn => absurd hc hn, ?_, ?_⟩
              · intro _
                by_cases hlt :
                    ((((start + Int.floor (g.offset k * (diffDays : ℚ))) :: sel).length : Int)
                      < target)
                · have := h1 hlt
                  rw [hsel] at this
                  simp only [List.length_cons]
                  push_cast
                  omega
                · have hre := h2 hlt
                  subst hre
                  simp only [List.length_cons, List.length_nil] at hlt ⊢
                  push_cast at hlt ⊢
                  omega
              · intro e he
                rcases List.mem_cons.1 he with rfl | he
                · refine ⟨rfl, hmem, ⟨k, a1, hbuild⟩, ?_⟩
                  intro hval hd
                  obtain ⟨hf0, hf1⟩ := offset_floor_bounds (hval.2.1 k) hd
                  constructor
                  · show start ≤ start + Int.floor (g.offset k * (diffDays : ℚ))
                    omega
                  · show start + Int.floor (g.offset k * (diffDays : ℚ)) ≤ start + diffDays - 1
                    omega
                · obtain ⟨hbad, hnotin, hex, hbounds⟩ := h3 e he
                  exact ⟨hbad, fun hin => hnotin (List.mem_cons_of_mem _ hin), hex, hbounds⟩
              · rw [List.map_cons, List.nodup_cons]
                refine ⟨?_, h4⟩
                intro hcon
                obtain ⟨e, he, hdate⟩ := List.mem_map.1 hcon
                obtain ⟨_, hnotin, _, _⟩ := h3 e he
                exact hnotin (hdate ▸ List.mem_cons_self _ _)
      · rename_i hc
        rw [Option.some.injEq] at h
        subst h
        exact ⟨fun hlt => absurd hlt hc, fun _ => rfl, by simp, by simp⟩

theorem legacySamplingLoop_length (g : Rng) (acts : List String)
    (start diffDays target : Int) :
    ∀ fuel k sel res,
      legacySamplingLoop g acts start diffDays target fuel k sel = some res →
      ((sel.length : Int) < target → (res.length : Int) + sel.length = target) ∧
        (¬ ((sel.length : Int) < target) → res = []) := by
  intro fuel
  induction fuel with
  | zero =>
      intro k sel res h
      simp only [legacySamplingLoop] at h
      split at h
      · simp at h
      · rename_i hc
        rw [Option.some.injEq] at h
        subst h
        exact ⟨fun hlt => absurd hlt hc, fun _ => rfl⟩
  | succ fuel ih =>
      intro k sel res h
      simp only [legacySamplingLoop] at h
      split at h
      · rename_i hc
        split at h
        · rename_i hmem
          obtain ⟨h1, h2⟩ := ih _ _ _ h
          exact ⟨fun _ => h1 hc, fun hn => absurd hc hn⟩
        · rename_i hmem
          split at h
          · simp at h
          · rename_i rest hrest
            rw [Option.some.injEq] at h
            subst h
            obtain ⟨h1, h2⟩ := ih _ _ _ hrest
            refine ⟨?_, fun hn => absurd hc hn⟩
            intro _
            by_cases hlt :
                ((((start + Int.floor (g.offset k * (diffDays : ℚ))) :: sel).length : Int)
                  < target)
            · have := h1 hlt
              simp only [List.length_cons] at this ⊢
              push_cast at this ⊢
              omega
            · have hre := h2 hlt
              subst hre
              simp only [List.length_cons, List.length_nil] at hlt ⊢
              push_cast at hlt ⊢
              omega
      · rename_i hc
        rw [Option.some.injEq] at h
        subst h
        exact ⟨fun hlt => absurd hlt hc, fun _ => rfl⟩

/-! ### Dispatch lemmas for `generateGoodDates` -/

theorem generateGoodDates_trading (g : Rng) (fuel : Nat) (start endDate : Int)
    (acts : List String) (res : List DayEntry)
    (hc : acts.contains "trading" = true)
    (h : generateGoodDates g fuel start endDate acts = some res) :
    ∃ raw, tradingLoop g acts start fuel (endDate - start + 1).toNat 0 = some raw ∧
      res = List.insertionSort dateLe raw := by
  simp only [generateGoodDates, hc, if_true] at h
  split at h
  · simp at h
  · rename_i raw hraw
    rw [Option.some.injEq] at h
    exact ⟨raw, hraw, h.symm⟩

theorem generateGoodDates_sampling (g : Rng) (fuel : Nat) (start endDate : Int)
    (acts : List String) (res : List DayEntry)
    (hc : acts.contains "trading" = false)
    (h : generateGoodDates g fuel start endDate acts = some res) :
    ∃ raw, samplingLoop g acts start (endDate - start + 1)
        (selectionCount false (endDate - start + 1)) fuel fuel 0 [] = some raw ∧
      res = List.insertionSort dateLe raw := by
  simp only [generateGoodDates, hc, Bool.false_eq_true, if_false] at h
  split at h
  · simp at h
  · rename_i raw hraw
    rw [Option.some.injEq] at h
    exact ⟨raw, hraw, h.symm⟩

theorem selectionCount_trading (d : Int) : selectionCount true d = d := by
  simp [selectionCount]

theorem selectionCount_pos {d : Int} (hd : 1 ≤ d) (t : Bool) :
    1 ≤ selectionCount t d := by
  cases t <;> simp only [selectionCount, Bool.false_eq_true, if_false, if_true]
  · split_ifs <;> omega
  · omega

theorem selectionCount_mid {d : Int} (h7 : 7 < d) (h30 : d ≤ 30) :
    selectionCount false d = 6 := by
  simp only [selectionCount, Bool.false_eq_true, if_false]
  split_ifs <;> omega

/-! ### Claim C1: the selection-count policy -/

/-- C1: for every valid range, the entry count of `generateGoodDates`
equals the selection-count policy applied to the inclusive day count
`diffDays = endDate - start + 1`: `diffDays` itself when `trading` is
selected, otherwise `min 3 diffDays` for `diffDays ≤ 7`, `min 6 diffDays`
for `7 < diffDays ≤ 30`, `min 12 diffDays` beyond (`selectionCount`); in
particular a single-day range yields exactly 1 entry and every range of at
least one day yields a non-empty result (stated for every terminating run
of the rejection loop). -/
theorem c1_selection_count_policy (g : Rng) (fuel : Nat) (start endDate : Int)
    (activities : List String) (res : List DayEntry)
    (hrange : start ≤ endDate)
    (h : generateGoodDates g fuel start endDate activities = some res) :
    (res.length : Int) =
        selectionCount (activities.contains "trading") (endDate - start + 1) ∧
      res ≠ [] ∧ (endDate = start → res.length = 1) := by
  have hd : 1 ≤ endDate - start + 1 := by omega
  cases hc : activities.contains "trading" with
  | true =>
      obtain ⟨raw, hraw, hres⟩ :=
        generateGoodDates_trading g fuel start endDate activities res hc h
      obtain ⟨hlen, _, _, _, _⟩ := tradingLoop_spec g activities start fuel _ _ _ hraw
      have hleneq : res.length = raw.length := by
        rw [hres]
        exact (List.perm_insertionSort dateLe raw).length_eq
      refine ⟨?_, ?_, ?_⟩
      · rw [hleneq, hlen, selectionCount_trading]
        omega
      · refine (List.length_pos).1 ?_
        rw [hleneq, hlen]
        omega
      · intro hEq
        rw [hleneq, hlen]
        omega
  | false =>
      obtain ⟨raw, hraw, hres⟩ :=
        generateGoodDates_sampling g fuel start endDate activities res hc h
      obtain ⟨h1, _, _, _⟩ :=
        samplingLoop_spec g activities start _ _ fuel fuel 0 [] raw hraw
      have hpos : 1 ≤ selectionCount false (endDate - start + 1) :=
        selectionCount_pos hd false
      have hlt : ((([] : List Int)).length : Int)
          < selectionCount false (endDate - start + 1) := by
        simp only [List.length_nil, Nat.cast_zero]
        omega
      have hlen := h1 hlt
      simp only [List.length_nil, Nat.cast_zero, add_zero] at hlen
      have hleneq : res.length = raw.length := by
        rw [hres]
        exact (List.perm_insertionSort dateLe raw).length_eq
      refine ⟨?_, ?_, ?_⟩
      · rw [hleneq]
        exact hlen
      · refine (List.length_pos).1 ?_
        rw [hleneq]
        omega
      · intro hEq
        have hone : selectionCount false (endDate - start + 1) = 1 := by
          have hδ : endDate - start + 1 = 1 := by omega
          rw [hδ]
          simp only [selectionCount, Bool.false_eq_true, if_false]
          split_ifs <;> omega
        rw [hleneq]
        omega

/-! ### Claim C3: distinctness, range membership, ordering -/

/-- C3: for every valid range and activity set, every terminating run of
`generateGoodDates` yields pairwise-distinct dates, each lying within
`[start, endDate]` inclusive, sorted ascending by date. -/
theorem c3_sampled_set_invariants (g : Rng) (fuel : Nat) (start endDate : Int)
    (activities : List String) (res : List DayEntry)
    (hg : ValidRng g) (hrange : start ≤ endDate)
    (h : generateGoodDates g fuel start endDate activities = some res) :
    (res.map fun e => e.date).Nodup ∧
      (∀ e ∈ res, start ≤ e.date ∧ e.date ≤ endDate) ∧
      List.Sorted dateLe res := by
  have hd : 0 < endDate - start + 1 := by omega
  cases hc : activities.contains "trading" with
  | true =>
      obtain ⟨raw, hraw, hres⟩ :=
        generateGoodDates_trading g fuel start endDate activities res hc h
      obtain ⟨hlen, _, hmem, hnd, _⟩ := tradingLoop_spec g activities start fuel _ _ _ hraw
      subst hres
      have hperm := List.perm_insertionSort dateLe raw
      refine ⟨((hperm.map _).nodup_iff).2 hnd, ?_, List.sorted_insertionSort dateLe raw⟩
      intro e he
      obtain ⟨hlow, hhigh, _⟩ := hmem e (hperm.subset he)
      have hcast : (((endDate - start + 1).toNat : Nat) : Int) = endDate - start + 1 := by
        omega
      constructor
      · have h0 : ((0 : Nat) : Int) = 0 := rfl
        rw [h0] at hlow
        omega
      · have h0 : ((0 : Nat) : Int) = 0 := rfl
        rw [h0, hcast] at hhigh
        omega
  | false =>
      obtain ⟨raw, hraw, hres⟩ :=
        generateGoodDates_sampling g fuel start endDate activities res hc h
      obtain ⟨_, _, h3, h4⟩ :=
        samplingLoop_spec g activities start _ _ fuel fuel 0 [] raw hraw
      subst hres
      have hperm := List.perm_insertionSort dateLe raw
      refine ⟨((hperm.map _).nodup_iff).2 h4, ?_, List.sorted_insertionSort dateLe raw⟩
      intro e he
      obtain ⟨_, _, _, hbounds⟩ := h3 e (hperm.subset he)
      obtain ⟨hlow, hhigh⟩ := hbounds hg hd
      exact ⟨hlow, by omega⟩

/-! ### Claim C7: favorability flags -/

/-- C7: when `trading` is not selected every returned entry is favorable
(`bad = false`); when `trading` is selected the entry for the `m`-th day of
the range has date `start + m` and is marked unfavorable exactly when that
day's independent draw is below 0.1. -/
theorem c7_favorability_flags (g : Rng) (fuel : Nat) (start endDate : Int)
    (activities : List String) (res : List DayEntry)
    (h : generateGoodDates g fuel start endDate activities = some res) :
    (activities.contains "trading" = false → ∀ e ∈ res, e.bad = false) ∧
      (activities.contains "trading" = true →
        ∀ m (hm : m < res.length),
          (res.get ⟨m, hm⟩).date = start + (m : Int) ∧
            ((res.get ⟨m, hm⟩).bad = true ↔ g.bad m < 1 / 10)) := by
  constructor
  · intro hc e he
    obtain ⟨raw, hraw, hres⟩ :=
      generateGoodDates_sampling g fuel start endDate activities res hc h
    obtain ⟨_, _, h3, _⟩ :=
      samplingLoop_spec g activities start _ _ fuel fuel 0 [] raw hraw
    subst hres
    exact (h3 e ((List.perm_insertionSort dateLe raw).subset he)).1
  · intro hc
    obtain ⟨raw, hraw, hres⟩ :=
      generateGoodDates_trading g fuel start endDate activities res hc h
    obtain ⟨_, hidx, _, _, hsort⟩ := tradingLoop_spec g activities start fuel _ _ _ hraw
    have hid : List.insertionSort dateLe raw = raw := List.Sorted.insertionSort_eq hsort
    subst hres
    rw [hid]
    intro m hm
    obtain ⟨hdate, hbad⟩ := hidx m hm
    constructor
    · rw [hdate]
      have h0 : ((0 : Nat) : Int) = 0 := rfl
      rw [h0]
      ring
    · rw [hbad]
      simp

/-! ### Claim C6: three distinct time slots per activity -/

/-- C6: for every returned day entry and every selected activity, the
entry's hour recommendations contain exactly 3 entries for that activity,
with pairwise-distinct time-slot values all drawn from the fixed slot
enumeration. -/
theorem c6_three_distinct_slots (g : Rng) (fuel : Nat) (start endDate : Int)
    (activities : List String) (res : List DayEntry)
    (hg : ValidRng g) (hnd : activities.Nodup)
    (h : generateGoodDates g fuel start endDate activities = some res) :
    ∀ e ∈ res, ∀ act ∈ activities,
      (e.hours.filter fun hr => hr.activity == act).length = 3 ∧
        ((e.hours.filter fun hr => hr.activity == act).map fun hr => hr.time).Nodup ∧
        ∀ hr ∈ e.hours.filter (fun hr => hr.activity == act), hr.time ∈ timeSlots := by
  intro e he act hact
  cases hc : activities.contains "trading" with
  | true =>
      obtain ⟨raw, hraw, hres⟩ :=
        generateGoodDates_trading g fuel start endDate activities res hc h
      obtain ⟨_, _, hmem, _, _⟩ := tradingLoop_spec g activities start fuel _ _ _ hraw
      subst hres
      obtain ⟨_, _, cc, a1, hbuild⟩ :=
        hmem e ((List.perm_insertionSort dateLe raw).subset he)
      obtain ⟨_, hfacts⟩ :=
        buildHourRecommendations_spec g cc fuel activities 0 e.hours a1 hbuild
      obtain ⟨hl, hn, hm⟩ := hfacts hnd act hact
      exact ⟨hl, hn, hm hg⟩
  | false =>
      obtain ⟨raw, hraw, hres⟩ :=
        generateGoodDates_sampling g fuel start endDate activities res hc h
      obtain ⟨_, _, h3, _⟩ :=
        samplingLoop_spec g activities start _ _ fuel fuel 0 [] raw hraw
      subst hres
      obtain ⟨_, _, hex, _⟩ := h3 e ((List.perm_insertionSort dateLe raw).subset he)
      obtain ⟨kk, a1, hbuild⟩ := hex
      obtain ⟨_, hfacts⟩ :=
        buildHourRecommendations_spec g kk fuel activities 0 e.hours a1 hbuild
      obtain ⟨hl, hn, hm⟩ := hfacts hnd act hact
      exact ⟨hl, hn, hm hg⟩

/-! ### Claim C10: agreement with the legacy sampler -/

/-- C10: for a range of inclusive day count `d` with `7 < d ≤ 30` and a
non-trading activity set, the legacy sampler (src/unnamed/part_000, always
`min 6 d` picks) and the current sampler return lists of the same length,
namely exactly 6 entries (for every pair of terminating runs). -/
theorem c10_legacy_sampler_agreement (g g2 : Rng) (fuel fuel2 : Nat)
    (start endDate : Int) (activities : List String)
    (res : List DayEntry) (res2 : List LegacyEntry)
    (h7 : 7 < endDate - start + 1) (h30 : endDate - start + 1 ≤ 30)
    (hc : activities.contains "trading" = false)
    (h : generateGoodDates g fuel start endDate activities = some res)
    (h2 : legacyGenerateGoodDates g2 fuel2 start endDate activities = some res2) :
    res.length = res2.length ∧ res.length = 6 := by
  obtain ⟨raw, hraw, hres⟩ :=
    generateGoodDates_sampling g fuel start endDate activities res hc h
  obtain ⟨s1, _, _, _⟩ :=
    samplingLoop_spec g activities start _ _ fuel fuel 0 [] raw hraw
  have htar : selectionCount false (endDate - start + 1) = 6 :=
    selectionCount_mid h7 h30
  have hlt : ((([] : List Int)).length : Int)
      < selectionCount false (endDate - start + 1) := by
    simp only [List.length_nil, Nat.cast_zero]
    omega
  have hlen := s1 hlt
  simp only [List.length_nil, Nat.cast_zero, add_zero, htar] at hlen
  have hleneq : res.length = raw.length := by
    rw [hres]
    exact (List.perm_insertionSort dateLe raw).length_eq
  simp only [legacyGenerateGoodDates] at h2
  split at h2
  · simp at h2
  · rename_i raw2 hraw2
    rw [Option.some.injEq] at h2
    obtain ⟨l1, _⟩ :=
      legacySamplingLoop_length g2 activities start _ _ fuel2 0 [] raw2 hraw2
    have htar2 : min 6 (endDate - start + 1) = 6 := min_eq_left (by omega)
    have hlt2 : ((([] : List Int)).length : Int) < min 6 (endDate - start + 1) := by
      simp only [List.length_nil, Nat.cast_zero]
      omega
    have hlen2 := l1 hlt2
    simp only [List.length_nil, Nat.cast_zero, add_zero, htar2] at hlen2
    have hleneq2 : res2.length = raw2.length := by
      rw [← h2]
      exact (List.perm_insertionSort legacyDateLe raw2).length_eq
    constructor
    · rw [hleneq, hleneq2]
      omega
    · rw [hleneq]
      omega

theorem wRng_valid : ValidRng wRng := by
  unfold ValidRng Unit01 wRng
  refine ⟨fun i => ⟨le_refl 0, by norm_num⟩, ?_, ?_,
    fun i => ⟨le_refl 0, by norm_num⟩, fun i => ⟨le_refl 0, by norm_num⟩,
    fun i => ⟨le_refl 0, by norm_num⟩, fun i => ⟨le_refl 0, by norm_num⟩⟩
  · intro k
    constructor
    · positivity
    · rw [div_lt_one (by norm_num : (0 : ℚ) < 30)]
      have hk : k % 30 < 30 := Nat.mod_lt _ (by norm_num)
      exact_mod_cast hk
  · intro c a
    constructor
    · positivity
    · rw [div_lt_one (by norm_num : (0 : ℚ) < 9)]
      have ha : a % 9 < 9 := Nat.mod_lt _ (by norm_num)
      exact_mod_cast ha

/-- Witness for C1 on the 3-day range 0..2 with one non-trading activity. -/
theorem c1_selection_count_policy_witness :
    (generateGoodDates wRng 32 0 2 ["marriage"]).map List.length = some 3 := by
  cases hres : generateGoodDates wRng 32 0 2 ["marriage"] with
  | none => exact absurd hres (by with_unfolding_all decide)
  | some res =>
      obtain ⟨h1, _, _⟩ :=
        c1_selection_count_policy wRng 32 0 2 ["marriage"] res (by norm_num) hres
      have hval : selectionCount (["marriage"].contains "trading") (2 - 0 + 1) = 3 := by
        decide
      rw [hval] at h1
      simp only [Option.map_some']
      congr 1
      omega

/-- Witness for C3 on the 3-day range 0..2 with one non-trading activity. -/
theorem c3_sampled_set_invariants_witness :
    Option.elim (generateGoodDates wRng 32 0 2 ["marriage"]) False
      (fun res => (res.map fun e => e.date).Nodup ∧
        (∀ e ∈ res, (0 : Int) ≤ e.date ∧ e.date ≤ 2) ∧
        List.Sorted dateLe res) := by
  cases hres : generateGoodDates wRng 32 0 2 ["marriage"] with
  | none => exact absurd hres (by with_unfolding_all decide)
  | some res =>
      exact c3_sampled_set_invariants wRng 32 0 2 ["marriage"] res wRng_valid
        (by norm_num) hres

/-- Witness for C6 on the 3-day range 0..2 with two distinct activities. -/
theorem c6_three_distinct_slots_witness :
    Option.elim (generateGoodDates wRng 40 0 2 ["marriage", "travel"]) False
      (fun res => ∀ e ∈ res, ∀ act ∈ ["marriage", "travel"],
        (e.hours.filter fun hr => hr.activity == act).length = 3 ∧
          ((e.hours.filter fun hr => hr.activity == act).map fun hr => hr.time).Nodup ∧
          ∀ hr ∈ e.hours.filter (fun hr => hr.activity == act),
            hr.time ∈ timeSlots) := by
  cases hres : generateGoodDates wRng 40 0 2 ["marriage", "travel"] with
  | none => exact absurd hres (by with_unfolding_all decide)
  | some res =>
      exact c6_three_distinct_slots wRng 40 0 2 ["marriage", "travel"] res
        wRng_valid (by decide) hres

/-- Witness for C7 on the 2-day range 0..1 with trading selected. -/
theorem c7_favorability_flags_witness :
    Option.elim (generateGoodDates wRng 16 0 1 ["trading"]) False
      (fun res =>
        ((["trading"].contains "trading" = false) → ∀ e ∈ res, e.bad = false) ∧
          (["trading"].contains "trading" = true →
            ∀ m (hm : m < res.length),
              (res.get ⟨m, hm⟩).date = 0 + (m : Int) ∧
                ((res.get ⟨m, hm⟩).bad = true ↔ wRng.bad m < 1 / 10))) := by
  cases hres : generateGoodDates wRng 16 0 1 ["trading"] with
  | none => exact absurd hres (by with_unfolding_all decide)
  | some res =>
      exact c7_favorability_flags wRng 16 0 1 ["trading"] res hres

/-- Witness for C10 on the 10-day range 0..9 (7 < diffDays = 10 ≤ 30). -/
theorem c10_legacy_sampler_agreement_witness :
    (generateGoodDates wRng 32 0 9 ["marriage"]).map List.length = some 6 ∧
      (legacyGenerateGoodDates wRng 32 0 9 ["marriage"]).map List.length = some 6 := by
  cases hres : generateGoodDates wRng 32 0 9 ["marriage"] with
  | none => exact absurd hres (by with_unfolding_all decide)
  | some res =>
      cases hres2 : legacyGenerateGoodDates wRng 32 0 9 ["marriage"] with
      | none => exact absurd hres2 (by with_unfolding_all decide)
      | some res2 =>
          obtain ⟨heq, h6⟩ := c10_legacy_sampler_agreement wRng wRng 32 32 0 9
            ["marriage"] res res2 (by norm_num) (by norm_num) (by decide) hres hres2
          constructor
          · simp only [Option.map_some']
            rw [h6]
          · simp only [Option.map_some']
            rw [← heq, h6]


/-! ### Claim C9: override-chart round trip -/

theorem parseStringBody_roundtrip :
    ∀ (s rest : List Char), quoteC ∉ s →
      parseStringBody (s ++ quoteC :: rest) = some (s, rest)
  | [], rest, _ => by simp [parseStringBody]
  | c :: s, rest, h => by
      have hc : ¬ (c = quoteC) := fun hcq => h (hcq ▸ List.mem_cons_self _ _)
      have ih := parseStringBody_roundtrip s rest (fun hm => h (List.mem_cons_of_mem _ hm))
      have ih' : parseStringBody (s.append (quoteC :: rest)) = some (s, rest) := ih
      simp only [List.cons_append, parseStringBody, if_neg hc]
      rw [ih']

theorem parseJsonString_roundtrip (s : String) (rest : List Char)
    (h : quoteC ∉ s.data) :
    parseJsonString (encodeJsonString s ++ rest) = some (s.data, rest) := by
  have hshape : encodeJsonString s ++ rest = quoteC :: (s.data ++ quoteC :: rest) := by
    simp [encodeJsonString]
  rw [hshape]
  simp only [parseJsonString, if_pos rfl]
  exact parseStringBody_roundtrip s.data rest h

theorem parseExact_self : ∀ (e t : List Char), parseExact e (e ++ t) = some t
  | [], t => by simp [parseExact]
  | c :: e, t => by
      simp only [List.cons_append, parseExact, if_pos rfl]
      exact parseExact_self e t

theorem parseExact_append (a b i : List Char) :
    parseExact (a ++ b) i =
      match parseExact a i with
      | none => none
      | some r => parseExact b r := by
  induction a generalizing i with
  | nil => simp [parseExact]
  | cons c a ih =>
      cases i with
      | nil => simp [parseExact]
      | cons d i =>
          show parseExact (c :: (a ++ b)) (d :: i) = _
          by_cases hd : d = c
          · simp only [parseExact, if_pos hd]
            exact ih i
          · simp only [parseExact, if_neg hd]

theorem parseExact_cons_self (c : Char) (t : List Char) :
    parseExact [c] (c :: t) = some t := by
  simp [parseExact]

theorem parseKeyValue_roundtrip (key v : String) (tail : List Char)
    (hv : quoteC ∉ v.data) :
    parseKeyValue key (encodeJsonString key ++ (':' :: (encodeJsonString v ++ tail)))
      = some (v.data, tail) := by
  unfold parseKeyValue
  rw [parseExact_append, parseExact_self]
  show (match parseExact [':'] (':' :: (encodeJsonString v ++ tail)) with
      | none => none
      | some rest => parseJsonString rest) = some (v.data, tail)
  rw [parseExact_cons_self]
  show parseJsonString (encodeJsonString v ++ tail) = some (v.data, tail)
  exact parseJsonString_roundtrip v tail hv

theorem parsePillarJson_roundtrip (p : Pillar) (rest : List Char)
    (h1 : quoteC ∉ p.pillar.data) (h2 : quoteC ∉ p.stem.data)
    (h3 : quoteC ∉ p.branch.data) :
    parsePillarJson (encodePillarJson p ++ rest) = some (p, rest) := by
  have hkv3 := parseKeyValue_roundtrip "branch" p.branch (rbraceC :: rest) h3
  have hkv2 := parseKeyValue_roundtrip "stem" p.stem
    (',' :: (encodeJsonString "branch" ++ (':' :: (encodeJsonString p.branch ++
      (rbraceC :: rest))))) h2
  have hkv1 := parseKeyValue_roundtrip "pillar" p.pillar
    (',' :: (encodeJsonString "stem" ++ (':' :: (encodeJsonString p.stem ++
      (',' :: (encodeJsonString "branch" ++ (':' :: (encodeJsonString p.branch ++
      (rbraceC :: rest))))))))) h1
  have hshape : encodePillarJson p ++ rest =
      lbraceC :: (encodeJsonString "pillar" ++ (':' :: (encodeJsonString p.pillar ++
        (',' :: (encodeJsonString "stem" ++ (':' :: (encodeJsonString p.stem ++
        (',' :: (encodeJsonString "branch" ++ (':' :: (encodeJsonString p.branch ++
        (rbraceC :: rest)))))))))))) := by
    simp [encodePillarJson, List.append_assoc]
  rw [hshape]
  simp only [parsePillarJson, if_pos rfl, hkv1, hkv2, hkv3, parseExact_cons_self]
  rfl

theorem encodePillarJson_shape (p : Pillar) :
    ∃ tl, encodePillarJson p = lbraceC :: tl :=
  ⟨encodeJsonString "pillar" ++ [':'] ++ encodeJsonString p.pillar
    ++ [','] ++ encodeJsonString "stem" ++ [':'] ++ encodeJsonString p.stem
    ++ [','] ++ encodeJsonString "branch" ++ [':'] ++ encodeJsonString p.branch
    ++ [rbraceC], by simp [encodePillarJson, List.append_assoc]⟩

theorem encodeItems_length_ge : ∀ chart : List Pillar,
    chart.length ≤ (encodeItems chart).length
  | [] => by simp [encodeItems]
  | [p] => by
      obtain ⟨tl, htl⟩ := encodePillarJson_shape p
      show 1 ≤ (encodePillarJson p).length
      rw [htl]
      simp
  | p :: q :: t => by
      have ih := encodeItems_length_ge (q :: t)
      obtain ⟨tl, htl⟩ := encodePillarJson_shape p
      have hp : (encodePillarJson p).length = tl.length + 1 := by rw [htl]; rfl
      show (q :: t).length + 1 ≤ (encodePillarJson p ++ ',' :: encodeItems (q :: t)).length
      simp only [List.length_append, List.length_cons, hp] at ih ⊢
      omega

theorem parseItems_roundtrip :
    ∀ (chart : List Pillar) (fuel : Nat) (rest : List Char), chart ≠ [] →
      QuoteFreeChart chart → chart.length ≤ fuel →
      parseItems fuel (encodeItems chart ++ ']' :: rest) = some (chart, rest)
  | [], _, _, hne, _, _ => absurd rfl hne
  | [p], fuel, rest, _, hqf, hfuel => by
      obtain ⟨h1, h2, h3⟩ := hqf p (List.mem_cons_self _ _)
      match fuel, hfuel with
      | Nat.succ fuel, _ =>
        have henc : encodeItems [p] = encodePillarJson p := rfl
        simp only [parseItems, henc, parsePillarJson_roundtrip p (']' :: rest) h1 h2 h3]
        simp
  | p :: q :: t, fuel, rest, _, hqf, hfuel => by
      obtain ⟨h1, h2, h3⟩ := hqf p (List.mem_cons_self _ _)
      have hqf' : QuoteFreeChart (q :: t) :=
        fun x hx => hqf x (List.mem_cons_of_mem _ hx)
      match fuel, hfuel with
      | Nat.succ fuel, hfuel =>
        have hfuel' : (q :: t).length ≤ fuel := by
          simp only [List.length_cons] at hfuel ⊢
          omega
        have ih := parseItems_roundtrip (q :: t) fuel rest (by simp) hqf' hfuel'
        have hshape : encodeItems (p :: q :: t) ++ ']' :: rest =
            encodePillarJson p ++ (',' :: (encodeItems (q :: t) ++ ']' :: rest)) := by
          show (encodePillarJson p ++ ',' :: encodeItems (q :: t)) ++ ']' :: rest = _
          simp [List.append_assoc]
        simp only [parseItems, hshape,
          parsePillarJson_roundtrip p (',' :: (encodeItems (q :: t) ++ ']' :: rest)) h1 h2 h3]
        simp [ih]

theorem parseChartJson_encode (chart : List Pillar) (hne : chart ≠ [])
    (hqf : QuoteFreeChart chart) :
    parseChartJson (String.mk (encodeChartJson chart)) = some chart := by
  obtain ⟨p, t, rfl⟩ : ∃ p t, chart = p :: t := by
    cases chart with
    | nil => exact absurd rfl hne
    | cons p t => exact ⟨p, t, rfl⟩
  obtain ⟨tl, htl⟩ : ∃ tl, encodeItems (p :: t) = lbraceC :: tl := by
    obtain ⟨tl0, htl0⟩ := encodePillarJson_shape p
    cases t with
    | nil => exact ⟨tl0, htl0⟩
    | cons q t' =>
        refine ⟨tl0 ++ ',' :: encodeItems (q :: t'), ?_⟩
        show encodePillarJson p ++ ',' :: encodeItems (q :: t') = _
        rw [htl0]
        simp
  have hdata : encodeChartJson (p :: t) = '[' :: (lbraceC :: (tl ++ [']'])) := by
    show '[' :: (encodeItems (p :: t) ++ [']']) = _
    rw [htl]
    simp
  simp only [parseChartJson]
  rw [hdata]
  have hlb : ¬ (lbraceC = ']') := by decide
  show (if ('[' : Char) = '[' then
      if lbraceC = ']' then some []
      else
        match parseItems ((lbraceC :: (tl ++ [']'])).length + 1)
            (lbraceC :: (tl ++ [']'])) with
        | none => none
        | some (ps, _) => some ps
    else none) = some (p :: t)
  rw [if_pos rfl, if_neg hlb]
  have hback : lbraceC :: (tl ++ [']']) = encodeItems (p :: t) ++ ']' :: [] := by
    rw [htl]
    simp
  have htllen : (encodeItems (p :: t)).length = tl.length + 1 := by
    rw [htl]
    rfl
  have hlen : (lbraceC :: (tl ++ [']'])).length + 1 = tl.length + 3 := by
    simp
  have hfm : (p :: t).length ≤ tl.length + 3 := by
    have := encodeItems_length_ge (p :: t)
    omega
  rw [hlen, hback]
  rw [parseItems_roundtrip (p :: t) (tl.length + 3) [] (by simp) hqf hfm]

/-- C9: saving a FourPillarsChart through the override path
(`localStorage.setItem('baziOverride', JSON.stringify(chart))`) and
reloading it via `loadProfile`'s override branch reproduces the same four
(pillar, stem, branch) tuples. -/
theorem c9_override_roundtrip (st : Store) (chart : List Pillar)
    (h : WellFormedChart chart) :
    loadOverrideChart (saveOverrideChart st chart) = some chart := by
  obtain ⟨hnames, hmem⟩ := h
  have hne : chart ≠ [] := by
    intro hnil
    rw [hnil] at hnames
    simp at hnames
  have hqf : QuoteFreeChart chart := by
    intro p hp
    have hpn : p.pillar ∈ ["Year", "Month", "Day", "Hour"] := by
      rw [← hnames]
      exact List.mem_map_of_mem _ hp
    obtain ⟨hstem, hbranch⟩ := hmem p hp
    refine ⟨?_, ?_, ?_⟩
    · have hq : ∀ s ∈ ["Year", "Month", "Day", "Hour"], quoteC ∉ s.data := by decide
      exact hq _ hpn
    · have hq : ∀ s ∈ stemsList, quoteC ∉ s.data := by decide
      exact hq _ hstem
    · have hq : ∀ s ∈ branchesList, quoteC ∉ s.data := by decide
      exact hq _ hbranch
  show parseChartJson (String.mk (encodeChartJson chart)) = some chart
  exact parseChartJson_encode chart hne hqf

/-- Witness for C9 at a concrete chart and empty store. -/
theorem c9_override_roundtrip_witness :
    loadOverrideChart (saveOverrideChart [] wChart) = some wChart :=
  c9_override_roundtrip [] wChart ⟨by decide, by decide⟩

/-! ### Claim C5: calendar grid lemmas -/

theorem rowLoop_length (firstRow : Bool) (fw td : Nat) (status : Nat → CellStatus) :
    ∀ n j dc, (rowLoop firstRow fw td status n j dc).1.length = n
  | 0, _, _ => rfl
  | Nat.succ n, j, dc => by
      simp only [rowLoop]
      split
      · simp [rowLoop_length firstRow fw td status n (j + 1) dc]
      · split
        · simp [rowLoop_length firstRow fw td status n (j + 1) dc]
        · simp [rowLoop_length firstRow fw td status n (j + 1) (dc + 1)]

theorem rowLoop_false_eq (fw td : Nat) (status : Nat → CellStatus) :
    ∀ n j dc,
      rowLoop false fw td status n j dc =
        ((List.range (min n (td + 1 - dc))).map
            (fun k => Cell.day (dc + k) (status (dc + k)))
          ++ List.replicate (n - (td + 1 - dc)) Cell.empty,
         dc + min n (td + 1 - dc))
  | 0, j, dc => by simp [rowLoop]
  | Nat.succ n, j, dc => by
      simp only [rowLoop, Bool.false_eq_true, false_and, if_false]
      by_cases hdc : td < dc
      · rw [if_pos hdc, rowLoop_false_eq fw td status n (j + 1) dc]
        have hr : td + 1 - dc = 0 := by omega
        rw [hr]
        simp [List.replicate_succ]
      · rw [if_neg hdc, rowLoop_false_eq fw td status n (j + 1) (dc + 1)]
        have hr1 : td + 1 - (dc + 1) = td - dc := by omega
        have hr2 : td + 1 - dc = (td - dc) + 1 := by omega
        have hmin : min (n + 1) ((td - dc) + 1) = min n (td - dc) + 1 := by omega
        have hrep : (n + 1) - ((td - dc) + 1) = n - (td - dc) := by omega
        rw [hr1, hr2, hmin, hrep]
        have hmap : (List.range (min n (td - dc) + 1)).map
              (fun k => Cell.day (dc + k) (status (dc + k)))
            = Cell.day dc (status dc) :: (List.range (min n (td - dc))).map
              (fun k => Cell.day (dc + 1 + k) (status (dc + 1 + k))) := by
          rw [List.range_succ_eq_map]
          simp only [List.map_cons, List.map_map, Nat.add_zero]
          congr 1
          apply List.map_congr_left
          intro a _
          have hsw : dc + (a + 1) = dc + 1 + a := by omega
          simp only [Function.comp_apply, Nat.succ_eq_add_one, hsw]
        rw [hmap]
        rw [Prod.mk.injEq]
        constructor
        · simp [List.cons_append]
        · omega

theorem rowLoop_first_ge (fw td : Nat) (status : Nat → CellStatus) :
    ∀ n j dc, fw ≤ j →
      rowLoop true fw td status n j dc = rowLoop false fw td status n j dc
  | 0, _, _, _ => rfl
  | Nat.succ n, j, dc, hj => by
      have hnj : ¬ (j < fw) := by omega
      simp only [rowLoop, hnj, and_false, Bool.false_eq_true, false_and, if_false]
      by_cases hdc : td < dc
      · rw [if_pos hdc, if_pos hdc,
          rowLoop_first_ge fw td status n (j + 1) dc (by omega)]
      · rw [if_neg hdc, if_neg hdc,
          rowLoop_first_ge fw td status n (j + 1) (dc + 1) (by omega)]

theorem rowLoop_first_eq (fw td : Nat) (status : Nat → CellStatus) :
    ∀ n j dc, j ≤ fw →
      rowLoop true fw td status n j dc =
        (List.replicate (min n (fw - j)) Cell.empty
            ++ (rowLoop false fw td status (n - (fw - j)) fw dc).1,
         (rowLoop false fw td status (n - (fw - j)) fw dc).2)
  | 0, j, dc, hj => by simp [rowLoop]
  | Nat.succ n, j, dc, hj => by
      by_cases hjf : j < fw
      · simp only [rowLoop, hjf, and_true, true_and, and_self, if_true]
        rw [rowLoop_first_eq fw td status n (j + 1) dc (by omega)]
        have h1 : fw - (j + 1) = (fw - j) - 1 := by omega
        have h2 : min (n + 1) (fw - j) = min n ((fw - j) - 1) + 1 := by omega
        have h3 : (n + 1) - (fw - j) = n - ((fw - j) - 1) := by omega
        rw [h1, h2, h3]
        rw [Prod.mk.injEq]
        constructor
        · simp [List.replicate_succ]
        · rfl
      · have h0 : fw - j = 0 := by omega
        rw [rowLoop_first_ge fw td status (n + 1) j dc (by omega), h0, Nat.sub_zero]
        rw [rowLoop_false_eq fw td status (n + 1) j dc,
          rowLoop_false_eq fw td status (n + 1) fw dc]
        simp

theorem gridLoop_rows_length (fw td : Nat) (status : Nat → CellStatus) :
    ∀ fuel i dc, ∀ row ∈ gridLoop fw td status fuel i dc, row.length = 7
  | 0, _, _ => by simp [gridLoop]
  | Nat.succ fuel, i, dc => by
      intro row hrow
      simp only [gridLoop, List.mem_cons] at hrow
      rcases hrow with rfl | hrow
      · exact rowLoop_length (i == 0) fw td status 7 0 dc
      · split at hrow
        · simp at hrow
        · exact gridLoop_rows_length fw td status fuel (i + 1) _ row hrow

theorem gridLoop_length_le (fw td : Nat) (status : Nat → CellStatus) :
    ∀ fuel i dc, (gridLoop fw td status fuel i dc).length ≤ fuel
  | 0, _, _ => by simp [gridLoop]
  | Nat.succ fuel, i, dc => by
      simp only [gridLoop, List.length_cons]
      split
      · simp
      · exact Nat.succ_le_succ (gridLoop_length_le fw td status fuel (i + 1) _)

theorem gridLoop_flatten (fw td : Nat) (status : Nat → CellStatus) :
    ∀ fuel i dc, i ≠ 0 → 1 ≤ dc → dc ≤ td → td + 1 - dc ≤ 7 * fuel →
      (gridLoop fw td status fuel i dc).flatten =
        (List.range (td + 1 - dc)).map (fun k => Cell.day (dc + k) (status (dc + k)))
          ++ List.replicate ((7 - (td + 1 - dc) % 7) % 7) Cell.empty
  | 0, i, dc, _, h1, h2, h3 => by omega
  | Nat.succ fuel, i, dc, hi, h1, h2, h3 => by
      have hio : (i == 0) = false := by
        simp only [beq_eq_false_iff_ne, ne_eq]
        exact hi
      simp only [gridLoop, hio]
      rw [rowLoop_false_eq fw td status 7 0 dc]
      by_cases h7 : td + 1 - dc ≤ 7
      · have hmin : min 7 (td + 1 - dc) = td + 1 - dc := by omega
        rw [hmin]
        have hstop : td < dc + (td + 1 - dc) := by omega
        rw [if_pos hstop]
        simp only [List.flatten_cons, List.flatten_nil, List.append_nil]
        have hpad : 7 - (td + 1 - dc) = (7 - (td + 1 - dc) % 7) % 7 := by omega
        rw [← hpad]
      · have hmin : min 7 (td + 1 - dc) = 7 := by omega
        rw [hmin]
        have hgo : ¬ (td < dc + 7) := by omega
        rw [if_neg hgo]
        simp only [List.flatten_cons]
        have hrec := gridLoop_flatten fw td status fuel (i + 1) (dc + 7)
          (by omega) (by omega) (by omega) (by omega)
        rw [hrec]
        set r2 := td + 1 - (dc + 7) with hr2
        have hTd : td + 1 - dc = 7 + r2 := by omega
        rw [hTd, List.range_add, List.map_append, List.map_map]
        have hrep0 : 7 - (7 + r2) = 0 := by omega
        rw [hrep0]
        simp only [List.replicate_zero, List.append_nil]
        have hpad : (7 - (7 + r2) % 7) % 7 = (7 - r2 % 7) % 7 := by omega
        rw [hpad]
        have hcomp : List.map ((fun k => Cell.day (dc + k) (status (dc + k)))
              ∘ (fun x => 7 + x)) (List.range r2)
            = List.map (fun k => Cell.day (dc + 7 + k) (status (dc + 7 + k)))
              (List.range r2) := by
          apply List.map_congr_left
          intro a _
          have hsw : dc + (7 + a) = dc + 7 + a := by omega
          simp only [Function.comp_apply, hsw]
        rw [hcomp, List.append_assoc]

theorem gridLoop_succ (fw td : Nat) (status : Nat → CellStatus)
    (fuel i dc : Nat) :
    gridLoop fw td status (Nat.succ fuel) i dc =
      (rowLoop (i == 0) fw td status 7 0 dc).1 ::
        (if td < (rowLoop (i == 0) fw td status 7 0 dc).2 then []
         else gridLoop fw td status fuel (i + 1)
           (rowLoop (i == 0) fw td status 7 0 dc).2) := rfl

theorem gridLoop_top_flatten (fw td : Nat) (status : Nat → CellStatus)
    (hfw : fw < 7) (htd1 : 1 ≤ td) (htd31 : td ≤ 31) :
    (gridLoop fw td status 6 0 1).flatten =
      List.replicate fw Cell.empty
        ++ (List.range td).map (fun k => Cell.day (1 + k) (status (1 + k)))
        ++ List.replicate ((7 - (fw + td) % 7) % 7) Cell.empty := by
  rw [show (6 : Nat) = Nat.succ 5 from rfl, gridLoop_succ]
  have h00 : ((0 : Nat) == 0) = true := rfl
  rw [h00, List.flatten_cons]
  rw [rowLoop_first_eq fw td status 7 0 1 (by omega)]
  dsimp only
  have hsub0 : fw - 0 = fw := by omega
  rw [hsub0]
  have hmin7 : min 7 fw = fw := by omega
  rw [hmin7]
  rw [rowLoop_false_eq fw td status (7 - fw) fw 1]
  dsimp only
  have htd : td + 1 - 1 = td := by omega
  rw [htd]
  simp only [Nat.zero_add]
  by_cases hcase : td ≤ 7 - fw
  · have hmin : min (7 - fw) td = td := by omega
    rw [hmin]
    have hstop : td < 1 + td := by omega
    rw [if_pos hstop]
    simp only [List.flatten_nil, List.append_nil]
    have hpad : (7 - fw) - td = (7 - (fw + td) % 7) % 7 := by omega
    rw [hpad]
    simp [List.append_assoc]
  · have hmin : min (7 - fw) td = 7 - fw := by omega
    rw [hmin]
    have hgo : ¬ (td < 1 + (7 - fw)) := by omega
    rw [if_neg hgo]
    have hrep0 : (7 - fw) - td = 0 := by omega
    rw [hrep0]
    simp only [List.replicate_zero, List.append_nil]
    have hrec := gridLoop_flatten fw td status 5 1 (1 + (7 - fw))
      (by omega) (by omega) (by omega) (by omega)
    rw [hrec]
    set r2 := td + 1 - (1 + (7 - fw)) with hr2
    have hTd : td = (7 - fw) + r2 := by omega
    conv_rhs => rw [hTd]
    rw [List.range_add, List.map_append, List.map_map]
    have hpad : (7 - (fw + ((7 - fw) + r2)) % 7) % 7 = (7 - r2 % 7) % 7 := by omega
    rw [hpad]
    have hcomp : List.map ((fun k => Cell.day (1 + k) (status (1 + k)))
          ∘ (fun x => (7 - fw) + x)) (List.range r2)
        = List.map (fun k => Cell.day (1 + (7 - fw) + k) (status (1 + (7 - fw) + k)))
          (List.range r2) := by
      apply List.map_congr_left
      intro a _
      have hsw : 1 + ((7 - fw) + a) = 1 + (7 - fw) + a := by omega
      simp only [Function.comp_apply, hsw]
    rw [hcomp]
    simp [List.append_assoc]

theorem firstWeekday_lt (mi : Int) : firstWeekday mi < 7 := by
  unfold firstWeekday
  have h1 := Int.emod_nonneg (daysFromCivil (monthYear mi) (monthM0 mi) 1 + 4)
    (show (7 : Int) ≠ 0 by norm_num)
  have h2 := Int.emod_lt_of_pos (daysFromCivil (monthYear mi) (monthM0 mi) 1 + 4)
    (show (0 : Int) < 7 by norm_num)
  omega

theorem getD_prop {α : Type} {P : α → Prop} :
    ∀ (l : List α) (n : Nat) (d : α), (∀ x ∈ l, P x) → P d → P (l.getD n d)
  | [], n, d, _, hd => by simpa [List.getD] using hd
  | x :: l, 0, d, hl, _ => by simpa using hl x (List.mem_cons_self _ _)
  | x :: l, Nat.succ n, d, hl, hd => by
      simpa using getD_prop l n d (fun y hy => hl y (List.mem_cons_of_mem _ hy)) hd

theorem daysInMonth_bounds (y : Int) (m0 : Nat) :
    1 ≤ daysInMonth y m0 ∧ daysInMonth y m0 ≤ 31 := by
  unfold daysInMonth
  cases hl : isLeap y <;>
    simp only [hl, Bool.false_eq_true, if_false, if_true] <;>
    refine getD_prop (P := fun v => 1 ≤ v ∧ v ≤ 31) _ m0 31 ?_ (by omega) <;>
    intro x hx <;>
    fin_cases hx <;>
    omega

theorem monthLoop_stop (entries : List DayEntry) (last mi : Int) (h : ¬ (mi ≤ last)) :
    monthLoop entries last mi = [] := by
  unfold monthLoop
  rw [dif_neg h]

theorem monthLoop_go (entries : List DayEntry) (last mi : Int) (h : mi ≤ last) :
    monthLoop entries last mi
      = renderMonthGrid entries mi :: monthLoop entries last (mi + 1) := by
  conv_lhs => unfold monthLoop
  rw [dif_pos h]

theorem monthLoop_spec (entries : List DayEntry) (last : Int) :
    ∀ (n : Nat) (mi : Int), (last + 1 - mi).toNat = n →
      (monthLoop entries last mi).length = n ∧
        ∀ k (hk : k < (monthLoop entries last mi).length),
          (monthLoop entries last mi).get ⟨k, hk⟩ = renderMonthGrid entries (mi + k)
  | 0, mi, hn => by
      have h : ¬ (mi ≤ last) := by omega
      rw [monthLoop_stop entries last mi h]
      exact ⟨rfl, by intro k hk; simp at hk⟩
  | Nat.succ n, mi, hn => by
      have h : mi ≤ last := by omega
      obtain ⟨hlen, hget⟩ := monthLoop_spec entries last n (mi + 1) (by omega)
      rw [monthLoop_go entries last mi h]
      constructor
      · simp [hlen]
      · intro k hk
        cases k with
        | zero => simp
        | succ k =>
            have hk' : k < (monthLoop entries last (mi + 1)).length := by
              simp only [List.length_cons] at hk
              omega
            have hg := hget k hk'
            simp only [List.get_cons_succ]
            rw [hg]
            congr 1
            push_cast
            ring

theorem mem_badDates (entries : List DayEntry) (s : Int) :
    s ∈ badDates entries ↔ ∃ e ∈ entries, e.date = s ∧ e.bad = true := by
  unfold badDates
  simp only [List.mem_map, List.mem_filter]
  constructor
  · rintro ⟨e, ⟨he, hb⟩, hd⟩
    exact ⟨e, he, hd, hb⟩
  · rintro ⟨e, he, hd, hb⟩
    exact ⟨e, ⟨he, hb⟩, hd⟩

theorem mem_goodDates (entries : List DayEntry) (s : Int) :
    s ∈ goodDates entries ↔ ∃ e ∈ entries, e.date = s ∧ e.bad = false := by
  unfold goodDates
  simp only [List.mem_map, List.mem_filter, Bool.not_eq_true']
  constructor
  · rintro ⟨e, ⟨he, hb⟩, hd⟩
    exact ⟨e, he, hd, hb⟩
  · rintro ⟨e, he, hd, hb⟩
    exact ⟨e, ⟨he, hb⟩, hd⟩

theorem statusOf_spec (entries : List DayEntry) (s : Int) :
    (statusOf entries s = CellStatus.unfavorable ↔
        ∃ e ∈ entries, e.date = s ∧ e.bad = true) ∧
      (statusOf entries s = CellStatus.favorable ↔
        ((¬ ∃ e ∈ entries, e.date = s ∧ e.bad = true) ∧
          ∃ e ∈ entries, e.date = s ∧ e.bad = false)) ∧
      (statusOf entries s = CellStatus.none ↔
        ((¬ ∃ e ∈ entries, e.date = s ∧ e.bad = true) ∧
          ¬ ∃ e ∈ entries, e.date = s ∧ e.bad = false)) := by
  rw [← mem_badDates, ← mem_goodDates]
  unfold statusOf
  split_ifs with h1 h2 <;> simp_all

theorem renderMonthGrid_structure (entries : List DayEntry) (mi : Int) :
    (∀ row ∈ renderMonthGrid entries mi, row.length = 7) ∧
      (renderMonthGrid entries mi).length ≤ 6 ∧
      (renderMonthGrid entries mi).flatten =
        List.replicate (firstWeekday mi) Cell.empty
          ++ (List.range (daysInMonth (monthYear mi) (monthM0 mi))).map
              (fun k => Cell.day (1 + k)
                (statusOf entries
                  (daysFromCivil (monthYear mi) (monthM0 mi) ((1 + k : Nat) : Int))))
          ++ List.replicate
              ((7 - (firstWeekday mi + daysInMonth (monthYear mi) (monthM0 mi)) % 7) % 7)
              Cell.empty := by
  obtain ⟨h1, h31⟩ := daysInMonth_bounds (monthYear mi) (monthM0 mi)
  refine ⟨?_, ?_, ?_⟩
  · exact gridLoop_rows_length (firstWeekday mi)
      (daysInMonth (monthYear mi) (monthM0 mi))
      (fun dc => statusOf entries (daysFromCivil (monthYear mi) (monthM0 mi) (dc : Int)))
      6 0 1
  · exact gridLoop_length_le (firstWeekday mi)
      (daysInMonth (monthYear mi) (monthM0 mi))
      (fun dc => statusOf entries (daysFromCivil (monthYear mi) (monthM0 mi) (dc : Int)))
      6 0 1
  · exact gridLoop_top_flatten (firstWeekday mi)
      (daysInMonth (monthYear mi) (monthM0 mi))
      (fun dc => statusOf entries (daysFromCivil (monthYear mi) (monthM0 mi) (dc : Int)))
      (firstWeekday_lt mi) h1 h31

/-- C5: the calendar renderer produces exactly one week-grid per calendar
month from the month of `range.start` through the month of `range.end`, in
chronological order; every grid has rows of exactly 7 cells and at most 6
rows; flattened, a grid is the month's first-weekday left padding, then day
cells 1..totalDays in order, then right padding to a full week; a non-empty
cell is unfavorable exactly when its date is in the sampled set with
`favorable = false` (checked first, so it takes precedence), favorable when
present only with `favorable = true`, and unmarked otherwise; and a range
spanning 1 January - 1 February yields exactly the January and February
grids in that order. -/
theorem c5_calendar_grids (entries : List DayEntry) (startMonth endMonth : Int)
    (hm : startMonth ≤ endMonth) :
    (renderCalendarRange entries startMonth endMonth).length
        = (endMonth - startMonth + 1).toNat ∧
      (∀ k (hk : k < (renderCalendarRange entries startMonth endMonth).length),
        (renderCalendarRange entries startMonth endMonth).get ⟨k, hk⟩
          = renderMonthGrid entries (startMonth + k)) ∧
      (∀ mi, ∀ row ∈ renderMonthGrid entries mi, row.length = 7) ∧
      (∀ mi, (renderMonthGrid entries mi).length ≤ 6) ∧
      (∀ mi, (renderMonthGrid entries mi).flatten =
        List.replicate (firstWeekday mi) Cell.empty
          ++ (List.range (daysInMonth (monthYear mi) (monthM0 mi))).map
              (fun k => Cell.day (1 + k)
                (statusOf entries
                  (daysFromCivil (monthYear mi) (monthM0 mi) ((1 + k : Nat) : Int))))
          ++ List.replicate
              ((7 - (firstWeekday mi + daysInMonth (monthYear mi) (monthM0 mi)) % 7) % 7)
              Cell.empty) ∧
      (∀ s, (statusOf entries s = CellStatus.unfavorable ↔
          ∃ e ∈ entries, e.date = s ∧ e.bad = true) ∧
        (statusOf entries s = CellStatus.favorable ↔
          ((¬ ∃ e ∈ entries, e.date = s ∧ e.bad = true) ∧
            ∃ e ∈ entries, e.date = s ∧ e.bad = false)) ∧
        (statusOf entries s = CellStatus.none ↔
          ((¬ ∃ e ∈ entries, e.date = s ∧ e.bad = true) ∧
            ¬ ∃ e ∈ entries, e.date = s ∧ e.bad = false))) ∧
      (∀ y : Int, renderCalendarRange entries (12 * y) (12 * y + 1)
        = [renderMonthGrid entries (12 * y), renderMonthGrid entries (12 * y + 1)]) := by
  obtain ⟨hlen, hget⟩ :=
    monthLoop_spec entries endMonth (endMonth + 1 - startMonth).toNat startMonth rfl
  refine ⟨?_, hget, fun mi => (renderMonthGrid_structure entries mi).1,
    fun mi => (renderMonthGrid_structure entries mi).2.1,
    fun mi => (renderMonthGrid_structure entries mi).2.2,
    fun s => statusOf_spec entries s, ?_⟩
  · rw [show renderCalendarRange entries startMonth endMonth
        = monthLoop entries endMonth startMonth from rfl, hlen]
    congr 1
    ring
  · intro y
    have hg1 := monthLoop_go entries (12 * y + 1) (12 * y) (by omega)
    have hg2 := monthLoop_go entries (12 * y + 1) (12 * y + 1) (by omega)
    have hg3 := monthLoop_stop entries (12 * y + 1) (12 * y + 1 + 1) (by omega)
    show monthLoop entries (12 * y + 1) (12 * y) = _
    rw [hg1, hg2, hg3]

/-- Witness for C5 on the January-February 2024 range
(absolute month indices 24288 and 24289). -/
theorem c5_calendar_grids_witness :
    (renderCalendarRange [] 24288 24289).length = 2 ∧
      renderCalendarRange [] 24288 24289
        = [renderMonthGrid [] 24288, renderMonthGrid [] 24289] := by
  have h := c5_calendar_grids [] 24288 24289 (by norm_num)
  refine ⟨?_, ?_⟩
  · rw [h.1]
    decide
  · have hjf := h.2.2.2.2.2.2 2024
    norm_num at hjf
    exact hjf
